import Mathlib

/-!
# Server logging and configuration: a shallow embedding

The definitions below embed `source/log.hpp`, `source/config.hpp` and
`source/thread.hpp`.  C++ `std::string` is `String`, unsigned machine integers
are `Nat` reduced modulo their width where a conversion happens, a
`std::shared_ptr<Logger>` is an index into the list of live `Logger` objects,
and a member function that mutates its object returns the new object.

`log.hpp` only declares the member functions whose bodies are in `log.cpp`; the
few of them the development needs are written from the specification and are
marked as such.
-/

namespace Server

/-! ## `LogLevel` -/

/-- Severity of a log event: `enum class LogLevel::Level`. -/
inductive LogLevel.Level where
  | UNKNOWN
  | DEBUG
  | INFO
  | WARN
  | ERROR
  | FATAL
  deriving DecidableEq, Repr

/-- The enumerator value of a level, as written in the `enum class`. -/
def LogLevel.Level.toNat : LogLevel.Level → Nat
  | .UNKNOWN => 0
  | .DEBUG => 1
  | .INFO => 2
  | .WARN => 3
  | .ERROR => 4
  | .FATAL => 5

/-- Built-in `<=` of a scoped enumeration: the enumerator values are compared. -/
instance LogLevel.Level.instLE : LE LogLevel.Level := ⟨fun a b => a.toNat ≤ b.toNat⟩

/-- Built-in `<` of a scoped enumeration: the enumerator values are compared. -/
instance LogLevel.Level.instLT : LT LogLevel.Level := ⟨fun a b => a.toNat < b.toNat⟩

instance LogLevel.Level.decLE (a b : LogLevel.Level) : Decidable (a ≤ b) :=
  inferInstanceAs (Decidable (a.toNat ≤ b.toNat))

instance LogLevel.Level.decLT (a b : LogLevel.Level) : Decidable (a < b) :=
  inferInstanceAs (Decidable (a.toNat < b.toNat))

/-- Modelled from the spec: `LogLevel::ToString` (its body is in `log.cpp`), the
severity name printed for `%p`. -/
def LogLevel.ToString : LogLevel.Level → String
  | .UNKNOWN => "UNKNOWN"
  | .DEBUG => "DEBUG"
  | .INFO => "INFO"
  | .WARN => "WARN"
  | .ERROR => "ERROR"
  | .FATAL => "FATAL"

/-! ## `LogEvent` -/

/-- A `std::shared_ptr<Logger>`: the position of the object among the live loggers. -/
abbrev LoggerPtr := Nat

/-- The data members of `LogEvent`; `m_ss` holds the text of the string stream. -/
structure LogEvent where
  m_file : String
  m_line : Int
  m_elapse : Nat
  m_threadId : Nat
  m_fiberId : Nat
  m_time : Nat
  m_threadName : String
  m_ss : String
  m_logger : LoggerPtr
  m_level : LogLevel.Level
  deriving DecidableEq, Repr

/-- Modelled from the spec: the nine-argument constructor of `LogEvent` (its body is
in `log.cpp`): every context field is set from the argument of the same name,
converted to the parameter type, and the buffer starts empty. -/
def LogEvent.new (logger : LoggerPtr) (level : LogLevel.Level) (file : String) (line : Int)
    (elapse threadId fiberId time : Nat) (threadName : String) : LogEvent :=
  { m_file := file
    m_line := line
    m_elapse := elapse % 2 ^ 32
    m_threadId := threadId % 2 ^ 32
    m_fiberId := fiberId % 2 ^ 32
    m_time := time % 2 ^ 64
    m_threadName := threadName
    m_ss := ""
    m_logger := logger
    m_level := level }

def LogEvent.getFile (e : LogEvent) : String := e.m_file

def LogEvent.getLine (e : LogEvent) : Int := e.m_line

def LogEvent.getElapse (e : LogEvent) : Nat := e.m_elapse

def LogEvent.getFiberId (e : LogEvent) : Nat := e.m_fiberId

def LogEvent.getThreadId (e : LogEvent) : Nat := e.m_threadId

/-- The accessor returns `uint32_t` while `m_time` is `uint64_t`: the value is
converted on return. -/
def LogEvent.getTime (e : LogEvent) : Nat := e.m_time % 2 ^ 32

def LogEvent.getContent (e : LogEvent) : String := e.m_ss

def LogEvent.getLogger (e : LogEvent) : LoggerPtr := e.m_logger

def LogEvent.getLevel (e : LogEvent) : LogLevel.Level := e.m_level

def LogEvent.getThreadName (e : LogEvent) : String := e.m_threadName

/-- The statement `event.getSS() << s` on a record whose stream is in the good state
with its put position at the end of the text, as the constructor and every such
insertion leave it: the stream returned by `getSS()` is `m_ss` itself, and the
insertion puts `s` after what the stream holds.  `LogEvent.Obj.getSS` is the
insertion in every state of the stream. -/
def LogEvent.write (e : LogEvent) (s : String) : LogEvent :=
  { e with m_ss := e.m_ss ++ s }

/-- Modelled from the spec: `LogEvent::format(fmt, ...)` (its body is in `log.cpp`),
the printf-style write.  `text` is the fully substituted string, `none` when the
substitution itself failed; the string is written into the buffer in one go. -/
def LogEvent.format (e : LogEvent) (text : Option String) : LogEvent :=
  match text with
  | some s => e.write s
  | none => e

/-- A `LogEvent` object with the whole state of its stream: `fields` holds the members
as the accessors show them (`m_ss` is the text `str()` returns), `tellp` is the
put position of `m_ss`, counted in characters from the start, and `fail` tells
whether `failbit` or `badbit` is set in it. -/
structure LogEvent.Obj where
  fields : LogEvent
  tellp : Nat
  fail : Bool
  deriving DecidableEq, Repr

/-- The object the nine-argument constructor leaves: the member `m_ss` is
default-constructed, empty, in the good state, its put position at 0. -/
def LogEvent.Obj.new (logger : LoggerPtr) (level : LogLevel.Level) (file : String) (line : Int)
    (elapse threadId fiberId time : Nat) (threadName : String) : LogEvent.Obj :=
  { fields := LogEvent.new logger level file line elapse threadId fiberId time threadName
    tellp := 0
    fail := false }

/-- What the holder of the `std::stringstream&` returned by `getSS()` can do with it:
insert a text, insert a null `const char*`, `seekp(pos)`, `str(s)`, `clear()`,
or any other operation of the stream, given by what it makes of the text, the
put position and the error state. -/
inductive StreamOp where
  | insert (s : String)
  | insert_null
  | seekp (pos : Nat)
  | str (s : String)
  | clear
  | other (f : String → Nat → Bool → String × Nat × Bool)

/-- One operation on the stream handed out by `getSS()`.  An insertion into a stream
that is not good writes nothing; otherwise the text is written at the put
position, over what is there, and the position moves behind it.  Inserting a
null `const char*` sets `badbit`.  `seekp` moves the put position within the
text and fails beyond it.  `str(s)` replaces the text and puts the position at
the start.  `clear()` resets the error state.  Whatever the operation, it acts
on the stream and on nothing else of the record. -/
def LogEvent.Obj.getSS (o : LogEvent.Obj) : StreamOp → LogEvent.Obj
  | .insert s =>
    if o.fail then o
    else
      { fields := { o.fields with
          m_ss := ⟨o.fields.m_ss.data.take o.tellp ++ s.data ++
            o.fields.m_ss.data.drop (o.tellp + s.data.length)⟩ }
        tellp := o.tellp + s.data.length
        fail := false }
  | .insert_null => { o with fail := true }
  | .seekp pos =>
    if o.fail then o
    else if pos ≤ o.fields.m_ss.data.length then { o with tellp := pos }
    else { o with fail := true }
  | .str s => { o with fields := { o.fields with m_ss := s }, tellp := 0 }
  | .clear => { o with fail := false }
  | .other f =>
    { fields := { o.fields with m_ss := (f o.fields.m_ss o.tellp o.fail).1 }
      tellp := (f o.fields.m_ss o.tellp o.fail).2.1
      fail := (f o.fields.m_ss o.tellp o.fail).2.2 }

/-- The public member functions that can be called on a constructed `LogEvent`: the
ones the class declares, with `getSS` standing for one operation on the stream
it returns, and the move assignment `operator=(LogEvent&&)`, which the class
does not declare and the language defines implicitly. -/
inductive LogEvent.Op where
  | getFile
  | getLine
  | getElapse
  | getFiberId
  | getThreadId
  | getTime
  | getContent
  | getLogger
  | getLevel
  | getThreadName
  | getSS (op : StreamOp)
  | format (text : Option String)
  | move_assign (other : LogEvent.Obj)

/-- The object after one call of a public member function.  The accessors are `const`;
`format` inserts its text into `m_ss`; the move assignment takes over every
member of the other object. -/
def LogEvent.Obj.apply (o : LogEvent.Obj) : LogEvent.Op → LogEvent.Obj
  | .getSS op => o.getSS op
  | .format (some s) => o.getSS (.insert s)
  | .move_assign other => other
  | _ => o

/-! ## `LogEventWrap` -/

/-- The scoped emitter: it holds the record until it goes out of scope. -/
structure LogEventWrap where
  m_event : LogEvent
  deriving DecidableEq, Repr

/-- Modelled from the spec: the constructor of `LogEventWrap` (its body is in
`log.cpp`) keeps the record it is given. -/
def LogEventWrap.new (e : LogEvent) : LogEventWrap := { m_event := e }

def LogEventWrap.getEvent (wr : LogEventWrap) : LogEvent := wr.m_event

/-- Modelled from the spec: `LogEventWrap::getSS` (its body is in `log.cpp`) is the
write handle into the record's buffer; this is one insertion through it. -/
def LogEventWrap.getSS_insert (wr : LogEventWrap) (s : String) : LogEventWrap :=
  { m_event := wr.m_event.write s }

/-! ## `LogFormatter` -/

/-- Modelled from the spec: the placeholder characters of the pattern table, one
constructor per row (`percent` is the second character of `%%`). -/
inductive LogFormatter.Placeholder where
  | m
  | p
  | r
  | c
  | t
  | n
  | d
  | f
  | l
  | T
  | F
  | N
  | percent
  deriving DecidableEq, Repr

/-- Modelled from the spec: the row of the placeholder table a character selects,
`none` for "any other char". -/
def LogFormatter.Placeholder.ofChar (ch : Char) : Option LogFormatter.Placeholder :=
  if ch = 'm' then some .m
  else if ch = 'p' then some .p
  else if ch = 'r' then some .r
  else if ch = 'c' then some .c
  else if ch = 't' then some .t
  else if ch = 'n' then some .n
  else if ch = 'd' then some .d
  else if ch = 'f' then some .f
  else if ch = 'l' then some .l
  else if ch = 'T' then some .T
  else if ch = 'F' then some .F
  else if ch = 'N' then some .N
  else if ch = '%' then some .percent
  else none

/-- The character a placeholder is written with. -/
def LogFormatter.Placeholder.toChar : LogFormatter.Placeholder → Char
  | .m => 'm'
  | .p => 'p'
  | .r => 'r'
  | .c => 'c'
  | .t => 't'
  | .n => 'n'
  | .d => 'd'
  | .f => 'f'
  | .l => 'l'
  | .T => 'T'
  | .F => 'F'
  | .N => 'N'
  | .percent => '%'

/-- Modelled from the spec: one rendering instruction (`FormatItem` is abstract in
the header, its subclasses are in `log.cpp`): a literal text fragment, or a
placeholder renderer with its sub-argument (empty when the pattern gave none). -/
inductive LogFormatter.FormatItem where
  | literal (text : String)
  | field (ph : LogFormatter.Placeholder) (arg : String)
  deriving DecidableEq, Repr

/-- The data members of `LogFormatter`. -/
structure LogFormatter where
  m_pattern : String
  m_items : List LogFormatter.FormatItem
  m_error : Bool
  deriving DecidableEq, Repr

/-- Where the left-to-right scan of a pattern stands: in literal text, right after a
`%`, right after a placeholder character (a `{` may follow), or inside a
`{...}` sub-argument, of which `acc` has been read and inside which `depth`
further `{` are still open. -/
inductive LogFormatter.Mode where
  | text
  | escape
  | key (ph : LogFormatter.Placeholder)
  | arg (ph : LogFormatter.Placeholder) (acc : String) (depth : Nat)
  deriving DecidableEq, Repr

/-- The state of the scan: the instructions produced so far, the literal run being
accumulated, the mode, and the error flag. -/
structure LogFormatter.Scan where
  items : List LogFormatter.FormatItem
  run : String
  mode : LogFormatter.Mode
  error : Bool
  deriving DecidableEq, Repr

/-- The instructions with the pending literal run, if any, turned into a literal item. -/
def LogFormatter.Scan.flush (s : LogFormatter.Scan) : List LogFormatter.FormatItem :=
  if s.run = "" then s.items else s.items ++ [.literal s.run]

/-- Append one instruction after the pending literal run; the scan is back in text. -/
def LogFormatter.Scan.emit (s : LogFormatter.Scan) (it : LogFormatter.FormatItem) :
    LogFormatter.Scan :=
  { items := s.flush ++ [it], run := "", mode := .text, error := s.error }

/-- Read one character outside an escape: a literal run accumulates until a `%`. -/
def LogFormatter.Scan.text (s : LogFormatter.Scan) (ch : Char) : LogFormatter.Scan :=
  if ch = '%' then { items := s.flush, run := "", mode := .escape, error := s.error }
  else { items := s.items, run := s.run ++ ch.toString, mode := .text, error := s.error }

/-- Modelled from the spec: one step of the pattern compiler's left-to-right scan
(`LogFormatter::init` is in `log.cpp`).  After `%` the placeholder character is
read; a character outside the table is kept as literal text, `%` included, and
the error flag is raised.  A `{` right after a placeholder character opens its
sub-argument, which runs up to the matching `}`: a `{` inside the sub-argument
is closed by the next `}` and both belong to the sub-argument. -/
def LogFormatter.Scan.step (s : LogFormatter.Scan) (ch : Char) : LogFormatter.Scan :=
  match s.mode with
  | .text => s.text ch
  | .escape =>
    match LogFormatter.Placeholder.ofChar ch with
    | some ph => { items := s.items, run := s.run, mode := .key ph, error := s.error }
    | none =>
      { items := s.items, run := s.run ++ ("%" ++ ch.toString), mode := .text, error := true }
  | .key ph =>
    if ch = '{' then { items := s.items, run := s.run, mode := .arg ph "" 0, error := s.error }
    else (s.emit (.field ph "")).text ch
  | .arg ph acc 0 =>
    if ch = '}' then s.emit (.field ph acc)
    else if ch = '{' then
      { items := s.items, run := s.run, mode := .arg ph (acc ++ ch.toString) 1, error := s.error }
    else
      { items := s.items, run := s.run, mode := .arg ph (acc ++ ch.toString) 0, error := s.error }
  | .arg ph acc (depth + 1) =>
    if ch = '}' then
      { items := s.items, run := s.run, mode := .arg ph (acc ++ ch.toString) depth
        error := s.error }
    else if ch = '{' then
      { items := s.items, run := s.run, mode := .arg ph (acc ++ ch.toString) (depth + 2)
        error := s.error }
    else
      { items := s.items, run := s.run, mode := .arg ph (acc ++ ch.toString) (depth + 1)
        error := s.error }

/-- Modelled from the spec: the end of the scan.  A pending literal run or placeholder
is emitted; a pattern that ends right after `%` or inside an unclosed `{` is
malformed: what was read is kept as literal text and the error flag is raised. -/
def LogFormatter.Scan.finish (s : LogFormatter.Scan) : LogFormatter.Scan :=
  match s.mode with
  | .text => { items := s.flush, run := "", mode := .text, error := s.error }
  | .escape => { s.emit (.literal "%") with error := true }
  | .key ph => s.emit (.field ph "")
  | .arg ph acc _ =>
    { s.emit (.literal ("%" ++ ph.toChar.toString ++ "\x7b" ++ acc)) with error := true }

/-- The scan before the first character. -/
def LogFormatter.Scan.start : LogFormatter.Scan :=
  { items := [], run := "", mode := .text, error := false }

/-- The scan after reading the characters `cs` from the start. -/
def LogFormatter.Scan.read (cs : List Char) : LogFormatter.Scan :=
  cs.foldl LogFormatter.Scan.step LogFormatter.Scan.start

/-- Modelled from the spec: `LogFormatter::LogFormatter(pattern)` followed by `init()`
(both bodies are in `log.cpp`): the pattern is compiled once, into the
instruction list and the error flag. -/
def LogFormatter.new (pattern : String) : LogFormatter :=
  let s := (LogFormatter.Scan.read pattern.toList).finish
  { m_pattern := pattern, m_items := s.items, m_error := s.error }

def LogFormatter.isError (f : LogFormatter) : Bool := f.m_error

def LogFormatter.getPattern (f : LogFormatter) : String := f.m_pattern

/-! ## `Spinlock`, `LogAppender`, `Logger` -/

/-- The spin lock of `thread.hpp`, seen through the calls made on it: how many times
`lock()` and `unlock()` have returned. -/
structure Spinlock where
  locks : Nat
  unlocks : Nat
  deriving DecidableEq, Repr

def Spinlock.lock (m : Spinlock) : Spinlock := { m with locks := m.locks + 1 }

def Spinlock.unlock (m : Spinlock) : Spinlock := { m with unlocks := m.unlocks + 1 }

/-- The lock is held when it was acquired more often than released. -/
def Spinlock.held (m : Spinlock) : Bool := decide (m.unlocks < m.locks)

/-- The data members of `LogAppender`. -/
structure LogAppender where
  m_formatter : Option LogFormatter
  m_level : LogLevel.Level
  m_hasFormatter : Bool
  m_mutex : Spinlock
  deriving DecidableEq, Repr

/-- The data members of `Logger`; `m_root` is null or points to the root logger. -/
structure Logger where
  m_name : String
  m_level : LogLevel.Level
  m_mutex : Spinlock
  m_appenders : List LogAppender
  m_formatter : Option LogFormatter
  m_root : Option LoggerPtr
  deriving DecidableEq, Repr

/-- The primitive actions a member function performs on its object's lock and level. -/
inductive LevelPrim where
  | m_mutex_lock
  | m_mutex_unlock
  | assign_m_level (val : LogLevel.Level)
  deriving DecidableEq, Repr

/-- A sequence of primitive actions writes the level only while it holds the lock:
every `assign_m_level` comes after a `m_mutex_lock` of the sequence that no
`m_mutex_unlock` has yet undone. -/
def LevelPrim.guarded : List LevelPrim → (depth : Nat) → Bool
  | [], _ => true
  | .m_mutex_lock :: rest, depth => LevelPrim.guarded rest (depth + 1)
  | .m_mutex_unlock :: rest, depth => LevelPrim.guarded rest (depth - 1)
  | .assign_m_level _ :: rest, depth => decide (0 < depth) && LevelPrim.guarded rest depth

def Logger.prim (lg : Logger) : LevelPrim → Logger
  | .m_mutex_lock => { lg with m_mutex := lg.m_mutex.lock }
  | .m_mutex_unlock => { lg with m_mutex := lg.m_mutex.unlock }
  | .assign_m_level val => { lg with m_level := val }

def Logger.getName (lg : Logger) : String := lg.m_name

def Logger.getLevel (lg : Logger) : LogLevel.Level := lg.m_level

/-- The body of `Logger::setLevel`, `{ m_level = val; }`, as primitive actions. -/
def Logger.setLevel.body (val : LogLevel.Level) : List LevelPrim := [.assign_m_level val]

def Logger.setLevel (lg : Logger) (val : LogLevel.Level) : Logger :=
  (Logger.setLevel.body val).foldl Logger.prim lg

def LogAppender.prim (a : LogAppender) : LevelPrim → LogAppender
  | .m_mutex_lock => { a with m_mutex := a.m_mutex.lock }
  | .m_mutex_unlock => { a with m_mutex := a.m_mutex.unlock }
  | .assign_m_level val => { a with m_level := val }

/-- The body of `LogAppender::setLevel`, `{ m_level = level; }`, as primitive actions. -/
def LogAppender.setLevel.body (level : LogLevel.Level) : List LevelPrim :=
  [.assign_m_level level]

def LogAppender.setLevel (a : LogAppender) (level : LogLevel.Level) : LogAppender :=
  (LogAppender.setLevel.body level).foldl LogAppender.prim a

def LogAppender.getLevel (a : LogAppender) : LogLevel.Level := a.m_level

/-- Modelled from the spec: what one instruction writes for a record
(`FormatItem::format` is pure virtual in the header, the overrides are in
`log.cpp`).  `strftime` is the date/time sub-formatter the `%d` sub-argument
is passed to. -/
def LogFormatter.FormatItem.format (strftime : String → Nat → String)
    (it : LogFormatter.FormatItem) (logger : Logger) (level : LogLevel.Level)
    (event : LogEvent) : String :=
  match it with
  | .literal text => text
  | .field .m _ => event.getContent
  | .field .p _ => LogLevel.ToString level
  | .field .r _ => toString event.getElapse
  | .field .c _ => logger.getName
  | .field .t _ => toString event.getThreadId
  | .field .n _ => "\n"
  | .field .d fmt => strftime fmt event.getTime
  | .field .f _ => event.getFile
  | .field .l _ => toString event.getLine
  | .field .T _ => "\t"
  | .field .F _ => toString event.getFiberId
  | .field .N _ => event.getThreadName
  | .field .percent _ => "%"

/-- The renderings of the instructions `items`, in order, written after `acc`. -/
def LogFormatter.renderItems (strftime : String → Nat → String)
    (items : List LogFormatter.FormatItem) (logger : Logger) (level : LogLevel.Level)
    (event : LogEvent) (acc : String) : String :=
  items.foldl (fun out it => out ++ it.format strftime logger level event) acc

/-- Modelled from the spec: `LogFormatter::format(logger, level, event)` returning a
string (its body is in `log.cpp`): each instruction is applied to the record in
order and the outputs are concatenated. -/
def LogFormatter.format (strftime : String → Nat → String) (f : LogFormatter)
    (logger : Logger) (level : LogLevel.Level) (event : LogEvent) : String :=
  LogFormatter.renderItems strftime f.m_items logger level event ""

/-! ## The call-site macros -/

/-- One call of `Logger::log(level, event)`, as the caller makes it. -/
structure Dispatch where
  logger : LoggerPtr
  level : LogLevel.Level
  event : LogEvent
  deriving DecidableEq, Repr

/-- The process as the logging statements see it: the live `Logger` objects (a
`Logger::ptr` is a position in `loggers`) and the calls of `Logger::log` made
so far, oldest first. -/
structure World where
  loggers : List Logger
  dispatched : List Dispatch
  deriving DecidableEq, Repr

/-- Modelled from the spec: the destructor of `LogEventWrap` (its body is in `log.cpp`)
invokes the owning logger's dispatch with the record, at the record's level.
The call goes through the record's logger pointer: there is no result when the
pointer designates no logger. -/
def LogEventWrap.destroy (wr : LogEventWrap) (w : World) : Option World :=
  match w.loggers[wr.m_event.getLogger]? with
  | none => none
  | some _ =>
    some { w with dispatched := w.dispatched ++
      [{ logger := wr.m_event.getLogger, level := wr.m_event.getLevel, event := wr.m_event }] }

/-- What the code holding a scoped emitter can do with it before it goes out of scope. -/
inductive LogEventWrap.Op where
  | getEvent
  | getSS_insert (s : String)
  deriving DecidableEq, Repr

/-- One use of a live scoped emitter: the emitter and the process afterwards. -/
def LogEventWrap.use (st : LogEventWrap × World) : LogEventWrap.Op → LogEventWrap × World
  | .getEvent => st
  | .getSS_insert s => (st.1.getSS_insert s, st.2)

/-- The emitter and the process at the end of the emitter's scope, just before its
destructor runs: construction from `e`, then the uses `ops` in order. -/
def LogEventWrap.scope (e : LogEvent) (ops : List LogEventWrap.Op) (w : World) :
    LogEventWrap × World :=
  ops.foldl LogEventWrap.use (LogEventWrap.new e, w)

/-- The whole life of a scoped emitter: construction, the uses, destruction. -/
def LogEventWrap.lifetime (e : LogEvent) (ops : List LogEventWrap.Op) (w : World) :
    Option World :=
  (LogEventWrap.scope e ops w).1.destroy (LogEventWrap.scope e ops w).2

/-- The text the insertions among `ops` write, in order. -/
def LogEventWrap.written : List LogEventWrap.Op → String
  | [] => ""
  | .getEvent :: rest => LogEventWrap.written rest
  | .getSS_insert s :: rest => s ++ LogEventWrap.written rest

/-- What the call-site macros read from the place and time of the call: `__FILE__`,
`__LINE__`, `Server::getThreadId()`, `Server::getFiberId()`, `time(0)` and
`Server::Thread::GetName()`; `elapsedMs` is the number of milliseconds since
process start at the time of the call. -/
structure CallSite where
  FILE : String
  LINE : Int
  elapsedMs : Nat
  threadId : Nat
  fiberId : Nat
  time0 : Nat
  threadName : String
  deriving DecidableEq, Repr

/-- The record the macros construct:
`new LogEvent(logger, level, __FILE__, __LINE__, 0, getThreadId(), getFiberId(),
time(0), Thread::GetName())`. -/
def SERVER_LOG_LEVEL.record (cs : CallSite) (logger : LoggerPtr) (level : LogLevel.Level) :
    LogEvent :=
  LogEvent.new logger level cs.FILE cs.LINE 0 cs.threadId cs.fiberId cs.time0 cs.threadName

/-- The guarded expression of `SERVER_LOG_LEVEL` and `SERVER_LOG_FMT_LEVEL`:
`if (logger->getLevel() <= level) LogEventWrap(LogEvent::ptr(new LogEvent(...)))`,
where `lg` is the object `logger` points to.  The result is the temporary that
was built, if any. -/
def SERVER_LOG_LEVEL.built (cs : CallSite) (lg : Logger) (logger : LoggerPtr)
    (level : LogLevel.Level) : Option LogEventWrap :=
  if lg.getLevel ≤ level then some (LogEventWrap.new (SERVER_LOG_LEVEL.record cs logger level))
  else none

/-- The statement `SERVER_LOG_LEVEL(logger, level) << s1 << s2 ...;`, with `texts`
the inserted texts: the temporary emitter lives until the end of the statement.
There is no result when `logger` designates no logger. -/
def SERVER_LOG_LEVEL (w : World) (cs : CallSite) (logger : LoggerPtr) (level : LogLevel.Level)
    (texts : List String) : Option World :=
  match w.loggers[logger]? with
  | none => none
  | some lg =>
    match SERVER_LOG_LEVEL.built cs lg logger level with
    | none => some w
    | some wr => LogEventWrap.lifetime wr.m_event (texts.map .getSS_insert) w

/-- The statement `SERVER_LOG_FMT_LEVEL(logger, level, fmt, ...);`, with `text` the
result of substituting the arguments into `fmt`: the temporary emitter hands out
its record, `format` writes into it, and the emitter is destroyed at the end of
the statement. -/
def SERVER_LOG_FMT_LEVEL (w : World) (cs : CallSite) (logger : LoggerPtr)
    (level : LogLevel.Level) (text : Option String) : Option World :=
  match w.loggers[logger]? with
  | none => none
  | some lg =>
    match SERVER_LOG_LEVEL.built cs lg logger level with
    | none => some w
    | some wr => (LogEventWrap.new (wr.getEvent.format text)).destroy w

/-! ## `ConfigArgBase`, `ConfigArg`, `ConfigMgr` -/

/-- The function `::tolower` on one character: an uppercase letter becomes the
lowercase one, every other character is returned as it is. -/
def tolower (c : Char) : Char :=
  if 'A' ≤ c ∧ c ≤ 'Z' then Char.ofNat (c.toNat + 32) else c

/-- The member `std::string::find_first_not_of(chars)`: the position of the first
character of `s` that is not one of `chars`, `none` for `npos`. -/
def find_first_not_of (s chars : List Char) : Option Nat :=
  match s with
  | [] => none
  | c :: rest =>
    if c ∈ chars then (find_first_not_of rest chars).map (· + 1) else some 0

/-- An object of class `ConfigArg<T>`: `T` names the template argument (it is the
dynamic type a `dynamic_pointer_cast` tests), `m_name` and `m_description` are
the members of the base class `ConfigArgBase`, `m_val` the stored value. -/
structure ConfigArg (ι V : Type) where
  T : ι
  m_name : String
  m_description : String
  m_val : V
  deriving DecidableEq, Repr

/-- The constructor `ConfigArg(name, default_value, description)`: the base-class
constructor stores the name and lower-cases it in place with `std::transform`. -/
def ConfigArg.new {ι V : Type} (T : ι) (name : String) (default_value : V)
    (description : String) : ConfigArg ι V :=
  { T := T
    m_name := ⟨name.data.map tolower⟩
    m_description := description
    m_val := default_value }

def ConfigArg.getName {ι V : Type} (a : ConfigArg ι V) : String := a.m_name

def ConfigArg.getDescription {ι V : Type} (a : ConfigArg ι V) : String := a.m_description

def ConfigArg.getValue {ι V : Type} (a : ConfigArg ι V) : V := a.m_val

def ConfigArg.setValue {ι V : Type} (a : ConfigArg ι V) (val : V) : ConfigArg ι V :=
  { a with m_val := val }

/-- The static state of `ConfigMgr`.  `heap` holds the parameter objects created by
`new`, oldest first, and a `ConfigArgBase::ptr` is a position in it; `m_data` is
the `std::map` from name to pointer, as its list of entries; `logged` lists the
statements `lookUp` has sent to the root logger, with their level. -/
structure ConfigMgr (ι V : Type) where
  heap : List (ConfigArg ι V)
  m_data : List (String × Nat)
  logged : List (LogLevel.Level × String)
  deriving DecidableEq, Repr

/-- The member `m_data.find(name)`: the pointer stored under `name`, `none` for `end()`. -/
def ConfigMgr.find (entries : List (String × Nat)) (name : String) : Option Nat :=
  match entries with
  | [] => none
  | (k, p) :: rest => if k = name then some p else ConfigMgr.find rest name

/-- The statement `m_data[name] = p`: the entry of `name` is overwritten when there is
one, and inserted at its place in key order otherwise. -/
def ConfigMgr.assign (entries : List (String × Nat)) (name : String) (p : Nat) :
    List (String × Nat) :=
  match entries with
  | [] => [(name, p)]
  | (k, q) :: rest =>
    if k = name then (name, p) :: rest
    else if name < k then (name, p) :: (k, q) :: rest
    else (k, q) :: ConfigMgr.assign rest name p

/-- A `std::dynamic_pointer_cast<ConfigArg<T>>`: the pointer itself when the object it
points to is a `ConfigArg<T>`, null otherwise. -/
def ConfigMgr.dynamic_pointer_cast {ι V : Type} [DecidableEq ι] (heap : List (ConfigArg ι V))
    (T : ι) (p : Nat) : Option Nat :=
  match heap[p]? with
  | some a => if a.T = T then some p else none
  | none => none

/-- The one-argument `ConfigMgr::lookUp<T>(name)`. -/
def ConfigMgr.lookUpName {ι V : Type} [DecidableEq ι] (mgr : ConfigMgr ι V) (T : ι)
    (name : String) : Option Nat :=
  match ConfigMgr.find mgr.m_data name with
  | none => none
  | some p => ConfigMgr.dynamic_pointer_cast mgr.heap T p

/-- The characters `lookUp` allows in a name. -/
def ConfigMgr.validChars : List Char := "abcdefghijklmnopqrstuvwxyz._0123456789".toList

/-- The three-argument `ConfigMgr::lookUp<T>(name, default_value, description)`:
the returned pointer, or the thrown `std::invalid_argument(name)`, and the state
afterwards. -/
def ConfigMgr.lookUp {ι V : Type} [DecidableEq ι] (mgr : ConfigMgr ι V) (T : ι)
    (name : String) (default_value : V) (description : String) :
    Except String Nat × ConfigMgr ι V :=
  if (find_first_not_of name.toList ConfigMgr.validChars).isSome then
    (.error name,
      { mgr with logged := mgr.logged ++ [(.ERROR, "requestted name is invalid " ++ name)] })
  else
    match mgr.lookUpName T name with
    | some tmp =>
      (.ok tmp,
        { mgr with logged := mgr.logged ++ [(.INFO, "Lookup name = " ++ name ++ " exists ")] })
    | none =>
      (.ok mgr.heap.length,
        { heap := mgr.heap ++ [ConfigArg.new T name default_value description]
          m_data := ConfigMgr.assign mgr.m_data name mgr.heap.length
          logged := mgr.logged })

/-- An object thrown out of a conversion functor, as the handler
`catch (std::exception& e)` sees it: an exception derived from `std::exception`,
with its `what()`, or an object of any other type. -/
inductive Thrown where
  | std_exception (what : String)
  | other
  deriving DecidableEq, Repr

/-- The outcome of `ConfigArg::fromString`: the value returned or the exception that
leaves the call, the object afterwards, and the statements sent to the root
logger. -/
structure FromStringResult (ι V : Type) where
  outcome : Except Thrown Bool
  arg : ConfigArg ι V
  logged : List (LogLevel.Level × String)

/-- The member `ConfigArg::fromString(val)`.  `FromStr` is the conversion functor of
the template, returning the converted value or what it throws; `typeName` is
`typeid(m_val).name()`.  Only an exception derived from `std::exception` is
caught by the handler. -/
def ConfigArg.fromString {ι V : Type} (FromStr : String → Except Thrown V) (typeName : String)
    (a : ConfigArg ι V) (val : String) : FromStringResult ι V :=
  match FromStr val with
  | .ok v => { outcome := .ok true, arg := a.setValue v, logged := [] }
  | .error (.std_exception what) =>
    { outcome := .ok false
      arg := a
      logged := [(.ERROR, "ConfigArg::fromString() exception " ++ what ++
        " convert string to " ++ typeName)] }
  | .error .other => { outcome := .error .other, arg := a, logged := [] }

/-- Every entry of the map points to a parameter object whose `getName()` is the key
of the entry. -/
def ConfigMgr.keysAreNames {ι V : Type} (mgr : ConfigMgr ι V) : Bool :=
  mgr.m_data.all fun entry =>
    match mgr.heap[entry.2]? with
    | some a => decide (a.getName = entry.1)
    | none => false

/-! ## The lock guards of `thread.hpp` -/

/-- A call of a member function of a mutex object (`Mutex`, `Spinlock`, `RWMutex`, ...). -/
inductive MutexCall where
  | lock
  | rdlock
  | wrlock
  | unlock
  deriving DecidableEq, Repr

/-- The number of acquisitions among the calls made on a mutex. -/
def MutexCall.acquisitions (calls : List MutexCall) : Nat :=
  (calls.filter fun c => decide (c ≠ MutexCall.unlock)).length

/-- The number of releases among the calls made on a mutex. -/
def MutexCall.releases (calls : List MutexCall) : Nat :=
  (calls.filter fun c => decide (c = MutexCall.unlock)).length

/-- The three guard templates `ScopedLock<T>`, `ScopedRdLock<T>` and
`ScopedWriteLock<T>`: they differ in the member of the mutex they acquire with. -/
inductive ScopedKind where
  | ScopedLock
  | ScopedRdLock
  | ScopedWriteLock
  deriving DecidableEq, Repr

/-- The acquiring call of each guard: `m_mutex.lock()`, `m_mutex.rdlock()`,
`m_mutex.wrlock()`. -/
def ScopedKind.acquire : ScopedKind → MutexCall
  | .ScopedLock => .lock
  | .ScopedRdLock => .rdlock
  | .ScopedWriteLock => .wrlock

/-- The data members of a guard: `m_mutex` is a reference to the mutex, seen here as
the calls made on that mutex so far, oldest first; `m_locked` is the flag. -/
structure Scoped where
  m_mutex : List MutexCall
  m_locked : Bool
  deriving DecidableEq, Repr

/-- The constructor of a guard on a mutex with the calls `mutex` behind it:
`m_mutex.lock(); m_locked = true;` (`rdlock`, `wrlock` for the other two). -/
def Scoped.new (k : ScopedKind) (mutex : List MutexCall) : Scoped :=
  { m_mutex := mutex ++ [k.acquire], m_locked := true }

/-- The member `lock()`: `if (!m_locked) { m_mutex.lock(); m_locked = true; }`. -/
def Scoped.lock (k : ScopedKind) (g : Scoped) : Scoped :=
  if !g.m_locked then { m_mutex := g.m_mutex ++ [k.acquire], m_locked := true } else g

/-- The member `unlock()`: `if (m_locked) { m_mutex.unlock(); m_locked = false; }`. -/
def Scoped.unlock (g : Scoped) : Scoped :=
  if g.m_locked then { m_mutex := g.m_mutex ++ [.unlock], m_locked := false } else g

/-- The destructor of a guard, `unlock();`: the calls made on the mutex once the guard
is gone. -/
def Scoped.destroy (g : Scoped) : List MutexCall := g.unlock.m_mutex

/-- A call made on a guard between its construction and its destruction. -/
inductive Scoped.Call where
  | lock
  | unlock
  deriving DecidableEq, Repr

/-- The guard after one call. -/
def Scoped.call (k : ScopedKind) (g : Scoped) : Scoped.Call → Scoped
  | .lock => g.lock k
  | .unlock => g.unlock

/-- The guard after construction on `mutex` and the calls `calls`, in order. -/
def Scoped.run (k : ScopedKind) (mutex : List MutexCall) (calls : List Scoped.Call) : Scoped :=
  calls.foldl (Scoped.call k) (Scoped.new k mutex)

/-- The calls `n` rounds of acquire-then-release make on the mutex. -/
def Scoped.rounds (k : ScopedKind) : Nat → List MutexCall
  | 0 => []
  | n + 1 => Scoped.rounds k n ++ [k.acquire, .unlock]

/-! ## The pattern compiler, seen from outside -/

/-- The text the scan has committed to so far, for a given record: the rendering of the
instructions already produced, followed by the pending literal run. -/
def LogFormatter.Scan.out (strftime : String → Nat → String) (s : LogFormatter.Scan)
    (logger : Logger) (level : LogLevel.Level) (event : LogEvent) : String :=
  LogFormatter.renderItems strftime s.items logger level event "" ++ s.run

/-- The scan reads a `%` at this point as the start of an escape: it is neither just
behind a `%` nor inside a `{...}` sub-argument. -/
def LogFormatter.Mode.opensEscape : LogFormatter.Mode → Bool
  | .text => true
  | .key _ => true
  | .escape => false
  | .arg _ _ _ => false

/-- The pattern contains, somewhere, a `%` followed by a character that is not a
placeholder of the table. -/
def LogFormatter.percentThenUnknown : List Char → Bool
  | [] => false
  | a :: rest =>
    match rest with
    | [] => false
    | b :: _ =>
      (a == '%' && (LogFormatter.Placeholder.ofChar b).isNone) ||
        LogFormatter.percentThenUnknown rest

/-! ## Severity order -/

/-- C3: the levels carry the values UNKNOWN=0, DEBUG=1, INFO=2, WARN=3, ERROR=4,
FATAL=5; the comparison used for filtering is the strict total order
UNKNOWN < DEBUG < INFO < WARN < ERROR < FATAL (irreflexive, transitive, any two
levels comparable, `<=` the complement of `>`), and two levels compare equal
only when they are the same level. -/
theorem LogLevel.Level.values_strict_total_order :
    (LogLevel.Level.UNKNOWN.toNat = 0 ∧ LogLevel.Level.DEBUG.toNat = 1 ∧
      LogLevel.Level.INFO.toNat = 2 ∧ LogLevel.Level.WARN.toNat = 3 ∧
      LogLevel.Level.ERROR.toNat = 4 ∧ LogLevel.Level.FATAL.toNat = 5) ∧
    (LogLevel.Level.UNKNOWN < LogLevel.Level.DEBUG ∧ LogLevel.Level.DEBUG < LogLevel.Level.INFO ∧
      LogLevel.Level.INFO < LogLevel.Level.WARN ∧ LogLevel.Level.WARN < LogLevel.Level.ERROR ∧
      LogLevel.Level.ERROR < LogLevel.Level.FATAL) ∧
    (∀ a : LogLevel.Level, ¬ a < a) ∧
    (∀ a b c : LogLevel.Level, a < b → b < c → a < c) ∧
    (∀ a b : LogLevel.Level, a < b ∨ a = b ∨ b < a) ∧
    (∀ a b : LogLevel.Level, a ≤ b ↔ ¬ b < a) ∧
    (∀ a b : LogLevel.Level, a.toNat = b.toNat ↔ a = b) ∧
    (∀ a b : LogLevel.Level, (a ≤ b ∧ b ≤ a) ↔ a = b) := by
  refine ⟨by decide, by decide, ?_, ?_, ?_, ?_, ?_, ?_⟩
  · intro a; cases a <;> decide
  · intro a b c; cases a <;> cases b <;> cases c <;> decide
  · intro a b; cases a <;> cases b <;> decide
  · intro a b; cases a <;> cases b <;> decide
  · intro a b; cases a <;> cases b <;> decide
  · intro a b; cases a <;> cases b <;> decide

/-! ## The gate of the call-site macros -/

theorem LogEventWrap.destroy_of_valid (wr : LogEventWrap) (w : World) (lg : Logger)
    (h : w.loggers[wr.m_event.getLogger]? = some lg) :
    wr.destroy w = some { w with dispatched := w.dispatched ++
      [{ logger := wr.m_event.getLogger, level := wr.m_event.getLevel, event := wr.m_event }] } := by
  simp [LogEventWrap.destroy, h]

theorem LogEventWrap.scope_world (e : LogEvent) (ops : List LogEventWrap.Op) (w : World) :
    (LogEventWrap.scope e ops w).2 = w := by
  unfold LogEventWrap.scope
  generalize LogEventWrap.new e = wr
  induction ops generalizing wr with
  | nil => rfl
  | cons op rest ih =>
    cases op with
    | getEvent => simpa [List.foldl, LogEventWrap.use] using ih wr
    | getSS_insert s => simpa [List.foldl, LogEventWrap.use] using ih (wr.getSS_insert s)

/-- The record at the end of the scope differs from the one the emitter was built
from in its buffer only, which has the written text appended. -/
theorem LogEventWrap.scope_event (e : LogEvent) (ops : List LogEventWrap.Op) (w : World) :
    (LogEventWrap.scope e ops w).1.m_event =
      { e with m_ss := e.m_ss ++ LogEventWrap.written ops } := by
  unfold LogEventWrap.scope LogEventWrap.new
  induction ops generalizing e with
  | nil => simp [LogEventWrap.written]
  | cons op rest ih =>
    cases op with
    | getEvent => simpa [List.foldl, LogEventWrap.use, LogEventWrap.written] using ih e
    | getSS_insert s =>
      have := ih (e.write s)
      simp only [List.foldl, LogEventWrap.use, LogEventWrap.getSS_insert]
      rw [this]
      simp [LogEvent.write, LogEventWrap.written, String.append_assoc]

theorem LogEventWrap.lifetime_of_valid (e : LogEvent) (ops : List LogEventWrap.Op) (w : World)
    (lg : Logger) (h : w.loggers[e.getLogger]? = some lg) :
    LogEventWrap.lifetime e ops w = some { w with dispatched := w.dispatched ++
      [{ logger := e.getLogger, level := e.getLevel,
         event := { e with m_ss := e.m_ss ++ LogEventWrap.written ops } }] } := by
  have hev := LogEventWrap.scope_event e ops w
  have hw := LogEventWrap.scope_world e ops w
  have hl : w.loggers[(LogEventWrap.scope e ops w).1.m_event.getLogger]? = some lg := by
    rw [hev]; exact h
  unfold LogEventWrap.lifetime
  rw [hw, LogEventWrap.destroy_of_valid _ w lg hl, hev]
  rfl

/-- C1: for a logger `lg` (the object `logger` points to) and any level, the macros
`SERVER_LOG_LEVEL` and `SERVER_LOG_FMT_LEVEL` build a record and its emitter
exactly when the logger's own level is `<=` the event level.  Below the gate
nothing is built and the statement leaves the process as it was (nothing is
dispatched); at or above it both statements dispatch one record to `logger`.
The decision is the same for every logger object with the same level, whatever
its sinks, formatter, name and root. -/
theorem SERVER_LOG_LEVEL_gate (w : World) (cs : CallSite) (logger : LoggerPtr) (lg : Logger)
    (level : LogLevel.Level) (texts : List String) (text : Option String)
    (h : w.loggers[logger]? = some lg) :
    ((SERVER_LOG_LEVEL.built cs lg logger level).isSome = true ↔ lg.getLevel ≤ level) ∧
    (level < lg.getLevel →
      SERVER_LOG_LEVEL.built cs lg logger level = none ∧
      SERVER_LOG_LEVEL w cs logger level texts = some w ∧
      SERVER_LOG_FMT_LEVEL w cs logger level text = some w) ∧
    (lg.getLevel ≤ level →
      SERVER_LOG_LEVEL.built cs lg logger level =
        some (LogEventWrap.new (SERVER_LOG_LEVEL.record cs logger level)) ∧
      (∃ e, SERVER_LOG_LEVEL w cs logger level texts =
        some { w with dispatched := w.dispatched ++ [⟨logger, level, e⟩] }) ∧
      (∃ e, SERVER_LOG_FMT_LEVEL w cs logger level text =
        some { w with dispatched := w.dispatched ++ [⟨logger, level, e⟩] })) ∧
    (∀ lg2 : Logger, lg2.m_level = lg.m_level →
      SERVER_LOG_LEVEL.built cs lg2 logger level = SERVER_LOG_LEVEL.built cs lg logger level) := by
  refine ⟨?_, ?_, ?_, ?_⟩
  · unfold SERVER_LOG_LEVEL.built
    by_cases hg : lg.getLevel ≤ level <;> simp [hg]
  · intro hlt
    have hg : ¬ lg.getLevel ≤ level := by
      intro hle
      exact absurd (show lg.getLevel.toNat ≤ level.toNat from hle)
        (Nat.not_le.mpr (show level.toNat < lg.getLevel.toNat from hlt))
    have hb : SERVER_LOG_LEVEL.built cs lg logger level = none := by
      simp [SERVER_LOG_LEVEL.built, hg]
    refine ⟨hb, ?_, ?_⟩
    · simp [SERVER_LOG_LEVEL, h, hb]
    · simp [SERVER_LOG_FMT_LEVEL, h, hb]
  · intro hg
    have hb : SERVER_LOG_LEVEL.built cs lg logger level =
        some (LogEventWrap.new (SERVER_LOG_LEVEL.record cs logger level)) := by
      simp [SERVER_LOG_LEVEL.built, hg]
    have hv : w.loggers[(SERVER_LOG_LEVEL.record cs logger level).getLogger]? = some lg := h
    refine ⟨hb, ?_, ?_⟩
    · refine ⟨{ (SERVER_LOG_LEVEL.record cs logger level) with
        m_ss := (SERVER_LOG_LEVEL.record cs logger level).m_ss ++
          LogEventWrap.written (texts.map .getSS_insert) }, ?_⟩
      simp only [SERVER_LOG_LEVEL, h, hb, LogEventWrap.new]
      rw [LogEventWrap.lifetime_of_valid _ _ w lg hv]
      rfl
    · refine ⟨(SERVER_LOG_LEVEL.record cs logger level).format text, ?_⟩
      simp only [SERVER_LOG_FMT_LEVEL, h, hb]
      have hv2 : w.loggers[(LogEventWrap.new ((LogEventWrap.new
          (SERVER_LOG_LEVEL.record cs logger level)).getEvent.format text)).m_event.getLogger]?
          = some lg := by
        cases text <;> exact h
      rw [LogEventWrap.destroy_of_valid _ w lg hv2]
      cases text <;> rfl
  · intro lg2 h2
    simp [SERVER_LOG_LEVEL.built, Logger.getLevel, h2]

/-- C1, at a concrete input: a child logger gated at WARN beside a root gated at DEBUG. -/
theorem SERVER_LOG_LEVEL_gate_witness :
    ((SERVER_LOG_LEVEL.built ⟨"a.cc", 10, 7, 1, 0, 1700000000, "main"⟩
        ⟨"child", .WARN, ⟨0, 0⟩, [], none, some 0⟩ 1 .INFO).isSome = true ↔
      (Logger.mk "child" .WARN ⟨0, 0⟩ [] none (some 0)).getLevel ≤ LogLevel.Level.INFO) ∧
    SERVER_LOG_LEVEL
      ⟨[⟨"root", .DEBUG, ⟨0, 0⟩, [], none, none⟩, ⟨"child", .WARN, ⟨0, 0⟩, [], none, some 0⟩], []⟩
      ⟨"a.cc", 10, 7, 1, 0, 1700000000, "main"⟩ 1 .INFO ["hi"] =
      some ⟨[⟨"root", .DEBUG, ⟨0, 0⟩, [], none, none⟩,
        ⟨"child", .WARN, ⟨0, 0⟩, [], none, some 0⟩], []⟩ :=
  have h := SERVER_LOG_LEVEL_gate
    ⟨[⟨"root", .DEBUG, ⟨0, 0⟩, [], none, none⟩, ⟨"child", .WARN, ⟨0, 0⟩, [], none, some 0⟩], []⟩
    ⟨"a.cc", 10, 7, 1, 0, 1700000000, "main"⟩ 1 ⟨"child", .WARN, ⟨0, 0⟩, [], none, some 0⟩
    .INFO ["hi"] none rfl
  ⟨h.1, (h.2.1 (by decide)).2.1⟩

/-- C2 as stated fails at L1 = L2: a logger set to INFO does not suppress an event at
INFO, although INFO <= INFO. -/
theorem Logger_gate_equal_levels_counterexample :
    LogLevel.Level.INFO ≤ LogLevel.Level.INFO ∧
    SERVER_LOG_LEVEL.built ⟨"a.cc", 10, 7, 1, 0, 1700000000, "main"⟩
      ((Logger.mk "root" .DEBUG ⟨0, 0⟩ [] none none).setLevel .INFO) 0 .INFO =
      some (LogEventWrap.new
        (SERVER_LOG_LEVEL.record ⟨"a.cc", 10, 7, 1, 0, 1700000000, "main"⟩ 0 .INFO)) := by
  constructor
  · decide
  · rfl

/-- C2, amended: for all severities L1 < L2 (strictly), a logger whose level was set to
L2 suppresses every event at level L1 (the macro builds nothing) and accepts
every event at level L2 or above (the macro builds the record and its emitter). -/
theorem Logger_gate_strict (lg : Logger) (cs : CallSite) (logger : LoggerPtr)
    (L1 L2 : LogLevel.Level) (h : L1 < L2) :
    (lg.setLevel L2).getLevel = L2 ∧
    SERVER_LOG_LEVEL.built cs (lg.setLevel L2) logger L1 = none ∧
    (∀ L : LogLevel.Level, L2 ≤ L →
      SERVER_LOG_LEVEL.built cs (lg.setLevel L2) logger L =
        some (LogEventWrap.new (SERVER_LOG_LEVEL.record cs logger L))) := by
  have hset : (lg.setLevel L2).getLevel = L2 := rfl
  refine ⟨hset, ?_, ?_⟩
  · have hg : ¬ L2 ≤ L1 := by
      intro hle
      exact absurd (show L2.toNat ≤ L1.toNat from hle)
        (Nat.not_le.mpr (show L1.toNat < L2.toNat from h))
    simp [SERVER_LOG_LEVEL.built, hset, hg]
  · intro L hL
    simp [SERVER_LOG_LEVEL.built, hset, hL]

/-- C2, amended, at a concrete input: a logger set to WARN and an event at INFO. -/
theorem Logger_gate_strict_witness :
    LogLevel.Level.INFO < LogLevel.Level.WARN ∧
    SERVER_LOG_LEVEL.built ⟨"a.cc", 10, 7, 1, 0, 1700000000, "main"⟩
      ((Logger.mk "root" .DEBUG ⟨0, 0⟩ [] none none).setLevel .WARN) 0 .INFO = none :=
  ⟨by decide,
    (Logger_gate_strict (Logger.mk "root" .DEBUG ⟨0, 0⟩ [] none none)
      ⟨"a.cc", 10, 7, 1, 0, 1700000000, "main"⟩ 0 .INFO .WARN (by decide)).2.1⟩

/-! ## The scoped emitter and the record -/

/-- C4: for every scoped emitter whose record has an owning logger, and every
sequence of uses made of it (any number of insertions, zero included), nothing
is dispatched while the emitter is alive, and over its whole life exactly one
call of the owning logger's dispatch is added, by the destructor, with the
record's level and the completed record: the record it was built with, its
buffer extended by the written text.  A freshly constructed record into which
nothing was written is dispatched with an empty message body. -/
theorem LogEventWrap_emits_exactly_once (e : LogEvent) (ops : List LogEventWrap.Op)
    (w : World) (lg : Logger) (h : w.loggers[e.getLogger]? = some lg) :
    (LogEventWrap.scope e ops w).2 = w ∧
    (∃ call : Dispatch,
      LogEventWrap.lifetime e ops w = some { w with dispatched := w.dispatched ++ [call] } ∧
      call.logger = e.getLogger ∧ call.level = e.getLevel ∧
      call.event = (LogEventWrap.scope e ops w).1.getEvent ∧
      call.event.getContent = e.getContent ++ LogEventWrap.written ops ∧
      (e.getContent = "" → LogEventWrap.written ops = "" → call.event.getContent = "")) ∧
    (∀ (logger : LoggerPtr) (level : LogLevel.Level) (file : String) (line : Int)
        (elapse threadId fiberId time : Nat) (threadName : String),
      (LogEvent.new logger level file line elapse threadId fiberId time
        threadName).getContent = "") ∧
    LogEventWrap.written [] = "" := by
  refine ⟨LogEventWrap.scope_world e ops w, ?_, ?_, rfl⟩
  · refine ⟨Dispatch.mk e.getLogger e.getLevel
        { e with m_ss := e.m_ss ++ LogEventWrap.written ops },
      LogEventWrap.lifetime_of_valid e ops w lg h, rfl, rfl, ?_, rfl, ?_⟩
    · exact (LogEventWrap.scope_event e ops w).symm
    · intro h1 h2
      show e.m_ss ++ LogEventWrap.written ops = ""
      rw [h2]
      simpa [LogEvent.getContent] using h1
  · intros; rfl

/-- C4 at a concrete input: an emitter built by the constructor for the root logger,
nothing written, dispatches one record with an empty body. -/
theorem LogEventWrap_emits_exactly_once_witness :
    ∃ call : Dispatch,
      LogEventWrap.lifetime (LogEvent.new 0 .INFO "a.cc" 10 0 1 0 1700000000 "main") []
        ⟨[⟨"root", .DEBUG, ⟨0, 0⟩, [], none, none⟩], []⟩ =
        some ⟨[⟨"root", .DEBUG, ⟨0, 0⟩, [], none, none⟩], [] ++ [call]⟩ ∧
      call.event.getContent = "" :=
  have h := (LogEventWrap_emits_exactly_once
    (LogEvent.new 0 .INFO "a.cc" 10 0 1 0 1700000000 "main") []
    ⟨[⟨"root", .DEBUG, ⟨0, 0⟩, [], none, none⟩], []⟩ ⟨"root", .DEBUG, ⟨0, 0⟩, [], none, none⟩
    rfl).2.1
  h.elim fun call hc => ⟨call, hc.1, hc.2.2.2.2.2 rfl rfl⟩

/-- C6, the code at a call made 1500 ms after process start: the record the macros
construct has `getElapse() = 0`, because the macros pass the literal `0` as the
`elapse` argument whatever the time of the call. -/
theorem SERVER_LOG_LEVEL_elapse_is_zero :
    (∀ (cs : CallSite) (logger : LoggerPtr) (level : LogLevel.Level),
      (SERVER_LOG_LEVEL.record cs logger level).getElapse = 0) ∧
    (SERVER_LOG_LEVEL.record ⟨"a.cc", 10, 1500, 1, 0, 1700000000, "main"⟩ 0 .INFO).getElapse
      ≠ (CallSite.mk "a.cc" 10 1500 1 0 1700000000 "main").elapsedMs := by
  refine ⟨fun _ _ _ => rfl, ?_⟩
  decide

/-- C10, the code: the body of `Logger::setLevel` and of `LogAppender::setLevel` is the
single assignment to `m_level`; it is not performed under the object's lock, and
the call leaves `m_mutex` as it found it, never acquired. -/
theorem setLevel_takes_no_lock :
    (∀ val : LogLevel.Level,
      LevelPrim.guarded (Logger.setLevel.body val) 0 = false ∧
      LevelPrim.guarded (LogAppender.setLevel.body val) 0 = false ∧
      LevelPrim.m_mutex_lock ∉ Logger.setLevel.body val ∧
      LevelPrim.m_mutex_lock ∉ LogAppender.setLevel.body val) ∧
    (∀ (lg : Logger) (val : LogLevel.Level),
      (lg.setLevel val).getLevel = val ∧ (lg.setLevel val).m_mutex = lg.m_mutex) ∧
    (∀ (a : LogAppender) (val : LogLevel.Level),
      (a.setLevel val).getLevel = val ∧ (a.setLevel val).m_mutex = a.m_mutex) ∧
    ((Logger.mk "root" .DEBUG ⟨0, 0⟩ [] none none).setLevel .ERROR).m_mutex.held = false := by
  refine ⟨?_, fun _ _ => ⟨rfl, rfl⟩, fun _ _ => ⟨rfl, rfl⟩, by decide⟩
  intro val
  simp [LevelPrim.guarded, Logger.setLevel.body, LogAppender.setLevel.body]

/-! ## `ConfigMgr::lookUp` -/

theorem find_first_not_of_eq_none (s chars : List Char) :
    find_first_not_of s chars = none ↔ ∀ c ∈ s, c ∈ chars := by
  induction s with
  | nil => simp [find_first_not_of]
  | cons a rest ih =>
    unfold find_first_not_of
    by_cases ha : a ∈ chars
    · simp [ha, ih]
    · simp [ha]

theorem find_first_not_of_isSome (s chars : List Char) :
    (find_first_not_of s chars).isSome = true ↔ ∃ c ∈ s, c ∉ chars := by
  rw [← not_iff_not]
  simp only [Bool.not_eq_true, Option.not_isSome, Option.isNone_iff_eq_none,
    find_first_not_of_eq_none]
  push_neg
  rfl

theorem ConfigMgr.upper_not_valid (c : Char) (h : 'A' ≤ c ∧ c ≤ 'Z') :
    c ∉ ConfigMgr.validChars := by
  intro hc
  simp only [ConfigMgr.validChars, String.toList, List.mem_cons, List.mem_singleton,
    List.not_mem_nil, or_false] at hc
  rcases hc with hc | hc | hc | hc | hc | hc | hc | hc | hc | hc | hc | hc | hc | hc | hc | hc |
    hc | hc | hc | hc | hc | hc | hc | hc | hc | hc | hc | hc | hc | hc | hc | hc | hc | hc |
    hc | hc | hc | hc <;> subst hc <;> revert h <;> decide

/-- C9: `lookUp(name, default, description)` throws `invalid_argument` exactly when
`name` contains a character outside "abcdefghijklmnopqrstuvwxyz._0123456789", and
returns a parameter otherwise; a name with an uppercase letter is rejected, the
empty name is accepted; and a call that throws leaves the map and the parameter
objects as they were. -/
theorem ConfigMgr_lookUp_throws_iff_invalid_char {ι V : Type} [DecidableEq ι]
    (mgr : ConfigMgr ι V) (T : ι) (name : String) (default_value : V) (description : String) :
    ((mgr.lookUp T name default_value description).1 = .error name ↔
      ∃ c ∈ name.toList, c ∉ "abcdefghijklmnopqrstuvwxyz._0123456789".toList) ∧
    ((∃ p, (mgr.lookUp T name default_value description).1 = .ok p) ↔
      ∀ c ∈ name.toList, c ∈ "abcdefghijklmnopqrstuvwxyz._0123456789".toList) ∧
    (∀ what, (mgr.lookUp T name default_value description).1 = .error what →
      what = name ∧
      (mgr.lookUp T name default_value description).2.m_data = mgr.m_data ∧
      (mgr.lookUp T name default_value description).2.heap = mgr.heap) ∧
    ((∃ c ∈ name.toList, 'A' ≤ c ∧ c ≤ 'Z') →
      (mgr.lookUp T name default_value description).1 = .error name) ∧
    (∃ p, (mgr.lookUp T "" default_value description).1 = .ok p) := by
  have key : ∀ nm : String,
      ((find_first_not_of nm.toList ConfigMgr.validChars).isSome = true →
        mgr.lookUp T nm default_value description = (.error nm,
          { mgr with logged := mgr.logged ++
            [(.ERROR, "requestted name is invalid " ++ nm)] })) ∧
      ((find_first_not_of nm.toList ConfigMgr.validChars).isSome = false →
        ∃ p, (mgr.lookUp T nm default_value description).1 = .ok p) := by
    intro nm
    constructor
    · intro hbad
      unfold ConfigMgr.lookUp
      rw [if_pos hbad]
    · intro hok
      unfold ConfigMgr.lookUp
      simp only [hok, Bool.false_eq_true, if_false]
      cases mgr.lookUpName T nm with
      | none => exact ⟨_, rfl⟩
      | some tmp => exact ⟨_, rfl⟩
  have hchars : "abcdefghijklmnopqrstuvwxyz._0123456789".toList = ConfigMgr.validChars := rfl
  rw [hchars]
  have hsome := find_first_not_of_isSome name.toList ConfigMgr.validChars
  by_cases hbad : (find_first_not_of name.toList ConfigMgr.validChars).isSome = true
  · have hres := (key name).1 hbad
    have hex := hsome.mp hbad
    refine ⟨?_, ?_, ?_, ?_, ?_⟩
    · rw [hres]; exact ⟨fun _ => hex, fun _ => rfl⟩
    · rw [hres]
      constructor
      · rintro ⟨p, hp⟩; cases hp
      · intro hall
        obtain ⟨c, hc, hn⟩ := hex
        exact absurd (hall c hc) hn
    · intro what hw
      rw [hres] at hw ⊢
      cases hw
      exact ⟨rfl, rfl, rfl⟩
    · intro _; rw [hres]
    · exact (key "").2 rfl
  · have hok : (find_first_not_of name.toList ConfigMgr.validChars).isSome = false := by
      simpa using hbad
    obtain ⟨p, hp⟩ := (key name).2 hok
    have hall : ∀ c ∈ name.toList, c ∈ ConfigMgr.validChars := by
      intro c hc
      by_contra hn
      exact hbad (hsome.mpr ⟨c, hc, hn⟩)
    refine ⟨?_, ?_, ?_, ?_, ?_⟩
    · rw [hp]
      constructor
      · intro h; cases h
      · rintro ⟨c, hc, hn⟩; exact absurd (hall c hc) hn
    · exact ⟨fun _ => hall, fun _ => ⟨p, hp⟩⟩
    · intro what hw
      rw [hp] at hw
      cases hw
    · rintro ⟨c, hc, hu⟩
      exact absurd (hall c hc) (ConfigMgr.upper_not_valid c hu)
    · exact (key "").2 rfl

/-- C8, the code at a name that is stored with another value type: "system.port" holds
a `ConfigArg<int>` (object 0); `lookUp<std::string>("system.port", "x", "")` finds
an entry under the name, yet returns a new object (1) and overwrites the entry,
so that the existing parameter is no longer the stored one. -/
theorem ConfigMgr_lookUp_replaces_other_type :
    ConfigMgr.find
      (ConfigMgr.mk [ConfigArg.new "int" "system.port" (Sum.inl 8080 : Int ⊕ String) "port"]
        [("system.port", 0)] []).m_data "system.port" = some 0 ∧
    ConfigMgr.lookUp
      (ConfigMgr.mk [ConfigArg.new "int" "system.port" (Sum.inl 8080 : Int ⊕ String) "port"]
        [("system.port", 0)] [])
      "std::string" "system.port" (Sum.inr "x") "" =
      (.ok 1,
        ConfigMgr.mk
          [ConfigArg.new "int" "system.port" (Sum.inl 8080) "port",
           ConfigArg.new "std::string" "system.port" (Sum.inr "x") ""]
          [("system.port", 1)] []) := by
  constructor
  · decide
  · rfl

/-! ## The pattern compiler -/

theorem LogFormatter.renderItems_acc (strftime : String → Nat → String)
    (items : List LogFormatter.FormatItem) (logger : Logger) (level : LogLevel.Level)
    (event : LogEvent) (acc : String) :
    LogFormatter.renderItems strftime items logger level event acc =
      acc ++ LogFormatter.renderItems strftime items logger level event "" := by
  unfold LogFormatter.renderItems
  induction items generalizing acc with
  | nil => simp
  | cons it rest ih =>
    simp only [List.foldl_cons]
    rw [ih (acc ++ _), ih ("" ++ _)]
    simp [String.append_assoc]

theorem LogFormatter.renderItems_append (strftime : String → Nat → String)
    (xs ys : List LogFormatter.FormatItem) (logger : Logger) (level : LogLevel.Level)
    (event : LogEvent) :
    LogFormatter.renderItems strftime (xs ++ ys) logger level event "" =
      LogFormatter.renderItems strftime xs logger level event "" ++
        LogFormatter.renderItems strftime ys logger level event "" := by
  have h : LogFormatter.renderItems strftime (xs ++ ys) logger level event "" =
      LogFormatter.renderItems strftime ys logger level event
        (LogFormatter.renderItems strftime xs logger level event "") := by
    simp [LogFormatter.renderItems, List.foldl_append]
  rw [h, LogFormatter.renderItems_acc]

theorem LogFormatter.renderItems_single (strftime : String → Nat → String)
    (it : LogFormatter.FormatItem) (logger : Logger) (level : LogLevel.Level)
    (event : LogEvent) :
    LogFormatter.renderItems strftime [it] logger level event "" =
      it.format strftime logger level event := by
  simp [LogFormatter.renderItems]

/-- Flushing the literal run does not change the committed text. -/
theorem LogFormatter.Scan.render_flush (strftime : String → Nat → String)
    (s : LogFormatter.Scan) (logger : Logger) (level : LogLevel.Level) (event : LogEvent) :
    LogFormatter.renderItems strftime s.flush logger level event "" =
      s.out strftime logger level event := by
  unfold LogFormatter.Scan.flush LogFormatter.Scan.out
  by_cases h : s.run = ""
  · simp [h]
  · simp only [h, if_false]
    rw [LogFormatter.renderItems_append, LogFormatter.renderItems_single]
    rfl

theorem LogFormatter.Scan.out_emit (strftime : String → Nat → String)
    (s : LogFormatter.Scan) (it : LogFormatter.FormatItem) (logger : Logger)
    (level : LogLevel.Level) (event : LogEvent) :
    (s.emit it).out strftime logger level event =
      s.out strftime logger level event ++ it.format strftime logger level event := by
  have h := LogFormatter.Scan.render_flush strftime s logger level event
  unfold LogFormatter.Scan.emit
  simp only [LogFormatter.Scan.out]
  rw [LogFormatter.renderItems_append, LogFormatter.renderItems_single, h]
  simp [LogFormatter.Scan.out]

theorem LogFormatter.Scan.out_text (strftime : String → Nat → String)
    (s : LogFormatter.Scan) (ch : Char) (logger : Logger) (level : LogLevel.Level)
    (event : LogEvent) :
    (s.text ch).out strftime logger level event =
      s.out strftime logger level event ++ (if ch = '%' then "" else ch.toString) := by
  unfold LogFormatter.Scan.text
  by_cases h : ch = '%'
  · simp only [h, if_true]
    have hf := LogFormatter.Scan.render_flush strftime s logger level event
    simp only [LogFormatter.Scan.out] at hf ⊢
    rw [hf]
  · simp [h, LogFormatter.Scan.out, String.append_assoc]

theorem LogFormatter.Scan.mode_text (s : LogFormatter.Scan) (ch : Char) :
    (s.text ch).mode = if ch = '%' then .escape else .text := by
  unfold LogFormatter.Scan.text
  by_cases h : ch = '%' <;> simp [h]

/-- Two scans in the same mode stay in the same mode when they read the same
character, and commit the same new text. -/
theorem LogFormatter.Scan.step_parallel (strftime : String → Nat → String)
    (s s0 : LogFormatter.Scan) (ch : Char) (logger : Logger) (level : LogLevel.Level)
    (event : LogEvent) (hm : s.mode = s0.mode) :
    (s.step ch).mode = (s0.step ch).mode ∧
    ∃ t, (s.step ch).out strftime logger level event = s.out strftime logger level event ++ t ∧
      (s0.step ch).out strftime logger level event = s0.out strftime logger level event ++ t := by
  unfold LogFormatter.Scan.step
  rw [hm]
  cases hm0 : s0.mode with
  | text =>
    exact ⟨by rw [LogFormatter.Scan.mode_text, LogFormatter.Scan.mode_text], _,
      LogFormatter.Scan.out_text strftime s ch logger level event,
      LogFormatter.Scan.out_text strftime s0 ch logger level event⟩
  | escape =>
    simp only
    cases LogFormatter.Placeholder.ofChar ch with
    | some ph => exact ⟨rfl, "", by simp [LogFormatter.Scan.out], by simp [LogFormatter.Scan.out]⟩
    | none =>
      exact ⟨rfl, "%" ++ ch.toString, by simp [LogFormatter.Scan.out, String.append_assoc],
        by simp [LogFormatter.Scan.out, String.append_assoc]⟩
  | key ph =>
    simp only
    by_cases h : ch = '{'
    · rw [if_pos h, if_pos h]
      exact ⟨rfl, "", by simp [LogFormatter.Scan.out], by simp [LogFormatter.Scan.out]⟩
    · rw [if_neg h, if_neg h]
      refine ⟨by rw [LogFormatter.Scan.mode_text, LogFormatter.Scan.mode_text],
        (LogFormatter.FormatItem.field ph "").format strftime logger level event ++
          (if ch = '%' then "" else ch.toString), ?_, ?_⟩
      · rw [LogFormatter.Scan.out_text, LogFormatter.Scan.out_emit, String.append_assoc]
      · rw [LogFormatter.Scan.out_text, LogFormatter.Scan.out_emit, String.append_assoc]
  | arg ph acc depth =>
    cases depth with
    | zero =>
      simp only
      by_cases h : ch = '}'
      · rw [if_pos h, if_pos h]
        exact ⟨rfl, _, LogFormatter.Scan.out_emit strftime s _ logger level event,
          LogFormatter.Scan.out_emit strftime s0 _ logger level event⟩
      · rw [if_neg h, if_neg h]
        by_cases h2 : ch = '{'
        · rw [if_pos h2, if_pos h2]
          exact ⟨rfl, "", by simp [LogFormatter.Scan.out], by simp [LogFormatter.Scan.out]⟩
        · rw [if_neg h2, if_neg h2]
          exact ⟨rfl, "", by simp [LogFormatter.Scan.out], by simp [LogFormatter.Scan.out]⟩
    | succ depth =>
      simp only
      by_cases h : ch = '}'
      · rw [if_pos h, if_pos h]
        exact ⟨rfl, "", by simp [LogFormatter.Scan.out], by simp [LogFormatter.Scan.out]⟩
      · rw [if_neg h, if_neg h]
        by_cases h2 : ch = '{'
        · rw [if_pos h2, if_pos h2]
          exact ⟨rfl, "", by simp [LogFormatter.Scan.out], by simp [LogFormatter.Scan.out]⟩
        · rw [if_neg h2, if_neg h2]
          exact ⟨rfl, "", by simp [LogFormatter.Scan.out], by simp [LogFormatter.Scan.out]⟩

theorem LogFormatter.Scan.foldl_parallel (strftime : String → Nat → String)
    (cs : List Char) (s s0 : LogFormatter.Scan) (logger : Logger) (level : LogLevel.Level)
    (event : LogEvent) (hm : s.mode = s0.mode) :
    (cs.foldl LogFormatter.Scan.step s).mode = (cs.foldl LogFormatter.Scan.step s0).mode ∧
    ∃ t, (cs.foldl LogFormatter.Scan.step s).out strftime logger level event =
        s.out strftime logger level event ++ t ∧
      (cs.foldl LogFormatter.Scan.step s0).out strftime logger level event =
        s0.out strftime logger level event ++ t := by
  induction cs generalizing s s0 with
  | nil => exact ⟨hm, "", by simp, by simp⟩
  | cons ch rest ih =>
    obtain ⟨hm1, t1, h1, h1z⟩ :=
      LogFormatter.Scan.step_parallel strftime s s0 ch logger level event hm
    obtain ⟨hm2, t2, h2, h2z⟩ := ih (s.step ch) (s0.step ch) hm1
    refine ⟨hm2, t1 ++ t2, ?_, ?_⟩
    · simp only [List.foldl_cons]
      rw [h2, h1, String.append_assoc]
    · simp only [List.foldl_cons]
      rw [h2z, h1z, String.append_assoc]

/-- The instructions of two finished scans that ended in the same mode render their
committed texts followed by the same pending text. -/
theorem LogFormatter.Scan.finish_parallel (strftime : String → Nat → String)
    (s s0 : LogFormatter.Scan) (logger : Logger) (level : LogLevel.Level) (event : LogEvent)
    (hm : s.mode = s0.mode) :
    ∃ t, LogFormatter.renderItems strftime s.finish.items logger level event "" =
        s.out strftime logger level event ++ t ∧
      LogFormatter.renderItems strftime s0.finish.items logger level event "" =
        s0.out strftime logger level event ++ t := by
  have hemit : ∀ (x : LogFormatter.Scan) (it : LogFormatter.FormatItem),
      LogFormatter.renderItems strftime (x.emit it).items logger level event "" =
        x.out strftime logger level event ++ it.format strftime logger level event := by
    intro x it
    have h := LogFormatter.Scan.out_emit strftime x it logger level event
    simpa [LogFormatter.Scan.out, LogFormatter.Scan.emit] using h
  unfold LogFormatter.Scan.finish
  rw [hm]
  cases hm0 : s0.mode with
  | text => exact ⟨"", by simp [LogFormatter.Scan.render_flush],
      by simp [LogFormatter.Scan.render_flush]⟩
  | escape => exact ⟨_, hemit s _, hemit s0 _⟩
  | key ph => exact ⟨_, hemit s _, hemit s0 _⟩
  | arg ph acc depth => exact ⟨_, hemit s _, hemit s0 _⟩

theorem LogFormatter.Scan.error_step (s : LogFormatter.Scan) (ch : Char)
    (h : s.error = true) : (s.step ch).error = true := by
  unfold LogFormatter.Scan.step
  cases hm : s.mode with
  | text =>
    simp only [LogFormatter.Scan.text]
    by_cases hc : ch = '%' <;> simp [hc, h]
  | escape =>
    simp only
    cases LogFormatter.Placeholder.ofChar ch <;> simp [h]
  | key ph =>
    simp only [LogFormatter.Scan.text, LogFormatter.Scan.emit]
    by_cases hc : ch = '{' <;> by_cases hp : ch = '%' <;> simp [hc, hp, h]
  | arg ph acc depth =>
    cases depth with
    | zero =>
      simp only [LogFormatter.Scan.emit]
      by_cases hc : ch = '}' <;> by_cases hp : ch = '{' <;> simp [hc, hp, h]
    | succ depth =>
      simp only
      by_cases hc : ch = '}' <;> by_cases hp : ch = '{' <;> simp [hc, hp, h]

theorem LogFormatter.Scan.error_foldl (cs : List Char) (s : LogFormatter.Scan)
    (h : s.error = true) : (cs.foldl LogFormatter.Scan.step s).error = true := by
  induction cs generalizing s with
  | nil => exact h
  | cons ch rest ih => exact ih (s.step ch) (LogFormatter.Scan.error_step s ch h)

theorem LogFormatter.Scan.error_finish (s : LogFormatter.Scan) (h : s.error = true) :
    s.finish.error = true := by
  unfold LogFormatter.Scan.finish
  cases hm : s.mode <;> simp [LogFormatter.Scan.emit, h]

/-- Where a `%` opens an escape, reading it commits exactly what ending the pattern
there would have produced. -/
theorem LogFormatter.Scan.step_percent (s : LogFormatter.Scan)
    (h : s.mode.opensEscape = true) :
    s.step '%' = { items := s.finish.items, run := "", mode := .escape, error := s.error } := by
  unfold LogFormatter.Scan.step LogFormatter.Scan.finish
  cases hm : s.mode with
  | text => simp [LogFormatter.Scan.text]
  | key ph =>
    have hne : ¬ ('%' = '{') := by decide
    simp [LogFormatter.Scan.text, LogFormatter.Scan.emit, LogFormatter.Scan.flush, hne]
  | escape => rw [hm] at h; cases h
  | arg ph acc depth => rw [hm] at h; cases h

theorem LogFormatter.Scan.step_unknown (s : LogFormatter.Scan) (c : Char)
    (hm : s.mode = .escape) (hc : LogFormatter.Placeholder.ofChar c = none) :
    s.step c =
      { items := s.items, run := s.run ++ ("%" ++ c.toString), mode := .text, error := true } := by
  unfold LogFormatter.Scan.step
  rw [hm]
  simp only [hc]

/-- C7, amended: for every pattern in which a `%` that the left-to-right scan reads as
the start of an escape (it is not the second character of an escape and not
inside a `{...}` sub-argument) is followed by a character `c` that is not a
placeholder of the table, compiling the pattern yields a formatter (compilation
is a total function), `isError()` is true afterwards, and the rendering of any
record is exactly the rendering by the pattern before that `%`, then the text
`%c` literally, then the rendering by the pattern after `c`. -/
theorem LogFormatter_unknown_placeholder_kept_literal (strftime : String → Nat → String)
    (pre rest : String) (c : Char)
    (hpre : (LogFormatter.Scan.read pre.toList).mode.opensEscape = true)
    (hc : LogFormatter.Placeholder.ofChar c = none) :
    (LogFormatter.new (pre ++ "%" ++ c.toString ++ rest)).getPattern =
      pre ++ "%" ++ c.toString ++ rest ∧
    (LogFormatter.new (pre ++ "%" ++ c.toString ++ rest)).isError = true ∧
    ∀ (logger : Logger) (level : LogLevel.Level) (event : LogEvent),
      (LogFormatter.new (pre ++ "%" ++ c.toString ++ rest)).format strftime logger level event =
        (LogFormatter.new pre).format strftime logger level event ++ ("%" ++ c.toString) ++
          (LogFormatter.new rest).format strftime logger level event := by
  have hlist : (pre ++ "%" ++ c.toString ++ rest).toList =
      pre.toList ++ '%' :: c :: rest.toList := by
    simp [String.toList, Char.toString, String.singleton_eq]
  have hread : LogFormatter.Scan.read (pre ++ "%" ++ c.toString ++ rest).toList =
      rest.toList.foldl LogFormatter.Scan.step
        { items := (LogFormatter.Scan.read pre.toList).finish.items
          run := "" ++ ("%" ++ c.toString), mode := .text, error := true } := by
    rw [hlist]
    unfold LogFormatter.Scan.read
    rw [List.foldl_append, List.foldl_cons, List.foldl_cons]
    show List.foldl _ (LogFormatter.Scan.step (LogFormatter.Scan.step
      (LogFormatter.Scan.read pre.toList) '%') c) _ = _
    rw [LogFormatter.Scan.step_percent _ hpre, LogFormatter.Scan.step_unknown _ c rfl hc]
    rfl
  refine ⟨rfl, ?_, ?_⟩
  · show (LogFormatter.Scan.read (pre ++ "%" ++ c.toString ++ rest).toList).finish.error = true
    rw [hread]
    exact LogFormatter.Scan.error_finish _ (LogFormatter.Scan.error_foldl _ _ rfl)
  · intro logger level event
    show LogFormatter.renderItems strftime
      (LogFormatter.Scan.read (pre ++ "%" ++ c.toString ++ rest).toList).finish.items
      logger level event "" =
      LogFormatter.renderItems strftime (LogFormatter.Scan.read pre.toList).finish.items
        logger level event "" ++ ("%" ++ c.toString) ++
      LogFormatter.renderItems strftime (LogFormatter.Scan.read rest.toList).finish.items
        logger level event ""
    rw [hread]
    obtain ⟨hm1, t1, h1, h1z⟩ := LogFormatter.Scan.foldl_parallel strftime rest.toList
      { items := (LogFormatter.Scan.read pre.toList).finish.items
        run := "" ++ ("%" ++ c.toString), mode := .text, error := true }
      LogFormatter.Scan.start logger level event rfl
    obtain ⟨t2, h2, h2z⟩ := LogFormatter.Scan.finish_parallel strftime _ _ logger level event hm1
    have hrest : LogFormatter.Scan.read rest.toList =
        rest.toList.foldl LogFormatter.Scan.step LogFormatter.Scan.start := rfl
    rw [hrest, h2, h2z, h1, h1z]
    simp [LogFormatter.Scan.out, LogFormatter.Scan.start, LogFormatter.renderItems,
      String.append_assoc]

/-- C7, amended, at a concrete input: the pattern "[%p] %q %m" renders "[INFO] %q hi". -/
theorem LogFormatter_unknown_placeholder_kept_literal_witness :
    (LogFormatter.new "[%p] %q %m").isError = true ∧
    (LogFormatter.new "[%p] %q %m").format (fun _ _ => "<date>")
        ⟨"root", .DEBUG, ⟨0, 0⟩, [], none, none⟩ .INFO
        ((LogEvent.new 0 .INFO "a.cc" 10 0 1 0 1700000000 "main").write "hi") =
      "[INFO] " ++ "%q" ++ " hi" :=
  have h := LogFormatter_unknown_placeholder_kept_literal (fun _ _ => "<date>")
    "[%p] " " %m" 'q' (by decide) (by decide)
  ⟨h.2.1, h.2.2 ⟨"root", .DEBUG, ⟨0, 0⟩, [], none, none⟩ .INFO
    ((LogEvent.new 0 .INFO "a.cc" 10 0 1 0 1700000000 "main").write "hi")⟩

/-- C7 as stated fails: the pattern "%d{%Y-%m-%d} [%p] %f:%l %m%n" contains `%`
followed by `Y`, which is not a placeholder of the table, yet it compiles
without the error flag and renders no "%Y": the `%Y` belongs to the
sub-argument handed to the date sub-formatter.  The same holds for "%%q",
whose second `%` is the literal-percent placeholder. -/
theorem LogFormatter_percent_then_unknown_counterexample :
    LogFormatter.percentThenUnknown "%d{%Y-%m-%d} [%p] %f:%l %m%n".toList = true ∧
    (LogFormatter.new "%d{%Y-%m-%d} [%p] %f:%l %m%n").isError = false ∧
    (LogFormatter.new "%d{%Y-%m-%d} [%p] %f:%l %m%n").format (fun _ _ => "<date>")
        ⟨"root", .DEBUG, ⟨0, 0⟩, [], none, none⟩ .INFO
        ((LogEvent.new 0 .INFO "a.cc" 10 0 1 0 1700000000 "main").write "hi") =
      "<date> [INFO] a.cc:10 hi\n" ∧
    LogFormatter.percentThenUnknown "%%q".toList = true ∧
    (LogFormatter.new "%%q").isError = false := by
  refine ⟨by decide, by decide, by decide, by decide, by decide⟩

/-! ## The lock guards -/

theorem ScopedKind.acquire_ne_unlock (k : ScopedKind) : k.acquire ≠ MutexCall.unlock := by
  cases k <;> decide

theorem MutexCall.acquisitions_append (xs ys : List MutexCall) :
    MutexCall.acquisitions (xs ++ ys) = MutexCall.acquisitions xs + MutexCall.acquisitions ys := by
  simp [MutexCall.acquisitions]

theorem MutexCall.releases_append (xs ys : List MutexCall) :
    MutexCall.releases (xs ++ ys) = MutexCall.releases xs + MutexCall.releases ys := by
  simp [MutexCall.releases]

theorem Scoped.rounds_counts (k : ScopedKind) (n : Nat) :
    MutexCall.acquisitions (Scoped.rounds k n) = n ∧
      MutexCall.releases (Scoped.rounds k n) = n := by
  induction n with
  | zero => exact ⟨rfl, rfl⟩
  | succ n ih =>
    have hk := ScopedKind.acquire_ne_unlock k
    constructor
    · rw [Scoped.rounds, MutexCall.acquisitions_append, ih.1]
      simp [MutexCall.acquisitions, hk]
    · rw [Scoped.rounds, MutexCall.releases_append, ih.2]
      simp [MutexCall.releases, hk]

/-- The calls a guard has made on its mutex are whole acquire-release rounds, followed
by one more acquisition exactly when `m_locked` is set. -/
theorem Scoped.call_rounds (k : ScopedKind) (mutex : List MutexCall) (g : Scoped)
    (c : Scoped.Call)
    (h : ∃ n, g.m_mutex = mutex ++ Scoped.rounds k n ++ (if g.m_locked then [k.acquire] else [])) :
    ∃ n, (g.call k c).m_mutex =
      mutex ++ Scoped.rounds k n ++ (if (g.call k c).m_locked then [k.acquire] else []) := by
  obtain ⟨n, hn⟩ := h
  cases c with
  | lock =>
    cases hl : g.m_locked with
    | true => exact ⟨n, by simpa [Scoped.call, Scoped.lock, hl] using hn⟩
    | false =>
      refine ⟨n, ?_⟩
      rw [hl] at hn
      simp [Scoped.call, Scoped.lock, hl, hn]
  | unlock =>
    cases hl : g.m_locked with
    | true =>
      refine ⟨n + 1, ?_⟩
      rw [hl] at hn
      simp [Scoped.call, Scoped.unlock, hl, hn, Scoped.rounds]
    | false => exact ⟨n, by simpa [Scoped.call, Scoped.unlock, hl] using hn⟩

theorem Scoped.foldl_rounds (k : ScopedKind) (mutex : List MutexCall)
    (calls : List Scoped.Call) (g : Scoped)
    (h : ∃ n, g.m_mutex = mutex ++ Scoped.rounds k n ++ (if g.m_locked then [k.acquire] else [])) :
    ∃ n, (calls.foldl (Scoped.call k) g).m_mutex = mutex ++ Scoped.rounds k n ++
      (if (calls.foldl (Scoped.call k) g).m_locked then [k.acquire] else []) := by
  induction calls generalizing g with
  | nil => exact h
  | cons c rest ih => exact ih (g.call k c) (Scoped.call_rounds k mutex g c h)

theorem Scoped.run_rounds (k : ScopedKind) (mutex : List MutexCall) (calls : List Scoped.Call) :
    ∃ n, (Scoped.run k mutex calls).m_mutex = mutex ++ Scoped.rounds k n ++
      (if (Scoped.run k mutex calls).m_locked then [k.acquire] else []) :=
  Scoped.foldl_rounds k mutex calls (Scoped.new k mutex) ⟨0, by simp [Scoped.new, Scoped.rounds]⟩

/-- C11: for each of the guards `ScopedLock`, `ScopedRdLock`, `ScopedWriteLock`, any
mutex and any sequence of `lock()` / `unlock()` calls made on the guard after its
construction: the calls the guard has added to its mutex hold as many
acquisitions as releases plus one when `m_locked` is true, and as many as
releases when it is false (their difference is 1, respectively 0); `lock()` on a
held guard and `unlock()` on a released guard change nothing; and once the
destructor has run the guard has added whole rounds of one acquisition followed
by its one release, so every acquisition has been released exactly once. -/
theorem Scoped_guard_acquisitions_balance (k : ScopedKind) (mutex : List MutexCall)
    (calls : List Scoped.Call) :
    (∃ added : List MutexCall,
      (Scoped.run k mutex calls).m_mutex = mutex ++ added ∧
      MutexCall.acquisitions added =
        MutexCall.releases added + (if (Scoped.run k mutex calls).m_locked then 1 else 0) ∧
      MutexCall.acquisitions added - MutexCall.releases added =
        (if (Scoped.run k mutex calls).m_locked then 1 else 0)) ∧
    (∀ g : Scoped, g.m_locked = true → g.lock k = g) ∧
    (∀ g : Scoped, g.m_locked = false → g.unlock = g) ∧
    (∃ n : Nat,
      (Scoped.run k mutex calls).destroy = mutex ++ Scoped.rounds k n ∧
      MutexCall.acquisitions (Scoped.rounds k n) = n ∧
      MutexCall.releases (Scoped.rounds k n) = n) := by
  obtain ⟨n, hn⟩ := Scoped.run_rounds k mutex calls
  have hk := ScopedKind.acquire_ne_unlock k
  have hc := Scoped.rounds_counts k n
  refine ⟨?_, ?_, ?_, ?_⟩
  · refine ⟨Scoped.rounds k n ++
      (if (Scoped.run k mutex calls).m_locked then [k.acquire] else []), ?_, ?_, ?_⟩
    · rw [hn, List.append_assoc]
    · rw [MutexCall.acquisitions_append, MutexCall.releases_append, hc.1, hc.2]
      cases (Scoped.run k mutex calls).m_locked <;>
        simp [MutexCall.acquisitions, MutexCall.releases, hk]
    · rw [MutexCall.acquisitions_append, MutexCall.releases_append, hc.1, hc.2]
      cases (Scoped.run k mutex calls).m_locked <;>
        simp [MutexCall.acquisitions, MutexCall.releases, hk]
  · intro g hg
    simp [Scoped.lock, hg]
  · intro g hg
    simp [Scoped.unlock, hg]
  · cases hl : (Scoped.run k mutex calls).m_locked with
    | true =>
      refine ⟨n + 1, ?_, (Scoped.rounds_counts k (n + 1)).1, (Scoped.rounds_counts k (n + 1)).2⟩
      rw [hl] at hn
      simp [Scoped.destroy, Scoped.unlock, hl, hn, Scoped.rounds]
    | false =>
      refine ⟨n, ?_, hc.1, hc.2⟩
      rw [hl] at hn
      simp [Scoped.destroy, Scoped.unlock, hl, hn]

/-! ## The timestamp accessor -/

/-- C14: for every record `getTime()` is the stored timestamp reduced modulo 2^32, and
it equals the stored timestamp exactly when that is below 2^32; for a record
constructed with the timestamp `time`, `getTime()` is `time` modulo 2^32, and
equals `time` exactly when `time` is below 2^32. -/
theorem LogEvent_getTime_truncates (e : LogEvent) (logger : LoggerPtr) (level : LogLevel.Level)
    (file : String) (line : Int) (elapse threadId fiberId time : Nat) (threadName : String) :
    e.getTime = e.m_time % 2 ^ 32 ∧
    (e.getTime = e.m_time ↔ e.m_time < 2 ^ 32) ∧
    (LogEvent.new logger level file line elapse threadId fiberId time threadName).getTime =
      time % 2 ^ 32 ∧
    ((LogEvent.new logger level file line elapse threadId fiberId time threadName).getTime = time ↔
      time < 2 ^ 32) ∧
    (LogEvent.new logger level file line elapse threadId fiberId 4294967296 threadName).getTime
      = 0 := by
  have hmod : ∀ n : Nat, (n % 2 ^ 32 = n ↔ n < 2 ^ 32) := by
    intro n
    constructor
    · intro h
      rw [← h]
      exact Nat.mod_lt _ (by norm_num)
    · exact Nat.mod_eq_of_lt
  have hnew : (LogEvent.new logger level file line elapse threadId fiberId time threadName).getTime
      = time % 2 ^ 32 := by
    show time % 2 ^ 64 % 2 ^ 32 = time % 2 ^ 32
    exact Nat.mod_mod_of_dvd time (by norm_num)
  refine ⟨rfl, hmod e.m_time, hnew, ?_, ?_⟩
  · rw [hnew]; exact hmod time
  · show 4294967296 % 2 ^ 64 % 2 ^ 32 = 0
    norm_num

/-! ## `ConfigArg::fromString` -/

/-- C12 as stated fails for a conversion that throws an object whose type is not
derived from `std::exception`: the handler does not match, `fromString` does not
return false, and the exception leaves the call. -/
theorem ConfigArg_fromString_other_exception_counterexample :
    (fun _ : String => (Except.error Thrown.other : Except Thrown Int)) "abc" =
      Except.error Thrown.other ∧
    (ConfigArg.fromString (fun _ : String => (Except.error Thrown.other : Except Thrown Int)) "i"
      (ConfigArg.new "int" "system.port" (8080 : Int) "port") "abc").outcome =
      Except.error Thrown.other := by
  constructor <;> rfl

/-- C12, amended: for every string `s`, `fromString(s)` returns true and sets the stored
value to `FromStr(s)` when the conversion succeeds; when the conversion throws
an exception derived from `std::exception`, `fromString` returns false, no
exception escapes, and `getValue()` is the same as before the call; an object
of any other type thrown by the conversion leaves `fromString`, the stored value
being the same as before.  The name and description never change. -/
theorem ConfigArg_fromString_outcomes {ι V : Type} (FromStr : String → Except Thrown V)
    (typeName : String) (a : ConfigArg ι V) (s : String) :
    (∀ v : V, FromStr s = .ok v →
      (a.fromString FromStr typeName s).outcome = .ok true ∧
      (a.fromString FromStr typeName s).arg.getValue = v ∧
      (a.fromString FromStr typeName s).arg = a.setValue v) ∧
    (∀ what : String, FromStr s = .error (.std_exception what) →
      (a.fromString FromStr typeName s).outcome = .ok false ∧
      (a.fromString FromStr typeName s).arg.getValue = a.getValue ∧
      (a.fromString FromStr typeName s).arg = a) ∧
    (FromStr s = .error .other →
      (a.fromString FromStr typeName s).outcome = .error .other ∧
      (a.fromString FromStr typeName s).arg = a) ∧
    (a.fromString FromStr typeName s).arg.getName = a.getName ∧
    (a.fromString FromStr typeName s).arg.getDescription = a.getDescription := by
  unfold ConfigArg.fromString
  cases h : FromStr s with
  | ok v =>
    refine ⟨?_, ?_, ?_, rfl, rfl⟩
    · intro v2 hv
      cases hv
      exact ⟨rfl, rfl, rfl⟩
    · intro what hw; cases hw
    · intro hw; cases hw
  | error t =>
    cases t with
    | std_exception what =>
      refine ⟨?_, ?_, ?_, rfl, rfl⟩
      · intro v hv; cases hv
      · intro w2 hw; exact ⟨rfl, rfl, rfl⟩
      · intro hw; cases hw
    | other =>
      refine ⟨?_, ?_, ?_, rfl, rfl⟩
      · intro v hv; cases hv
      · intro w2 hw; cases hw
      · intro _; exact ⟨rfl, rfl⟩

/-- C12, amended, at a concrete input: a conversion that accepts "8081" and throws a
`std::exception` on anything else, applied to a parameter holding 8080. -/
theorem ConfigArg_fromString_outcomes_witness :
    ((ConfigArg.new "int" "system.port" (8080 : Int) "port").fromString
      (fun s => if s = "8081" then .ok 8081 else .error (.std_exception "bad lexical cast"))
      "i" "8081").arg.getValue = 8081 ∧
    ((ConfigArg.new "int" "system.port" (8080 : Int) "port").fromString
      (fun s => if s = "8081" then .ok 8081 else .error (.std_exception "bad lexical cast"))
      "i" "x").arg.getValue = 8080 :=
  ⟨((ConfigArg_fromString_outcomes
      (fun s => if s = "8081" then .ok 8081 else .error (.std_exception "bad lexical cast"))
      "i" (ConfigArg.new "int" "system.port" (8080 : Int) "port") "8081").1 8081 rfl).2.1,
   ((ConfigArg_fromString_outcomes
      (fun s => if s = "8081" then .ok 8081 else .error (.std_exception "bad lexical cast"))
      "i" (ConfigArg.new "int" "system.port" (8080 : Int) "port") "x").2.1
        "bad lexical cast" rfl).2.1⟩

/-! ## The keys of the parameter map -/

theorem tolower_of_not_upper (c : Char) (h : ¬ ('A' ≤ c ∧ c ≤ 'Z')) : tolower c = c := by
  simp [tolower, h]

theorem tolower_valid (c : Char) (h : c ∈ ConfigMgr.validChars) : tolower c = c :=
  tolower_of_not_upper c fun hu => ConfigMgr.upper_not_valid c hu h

theorem ConfigArg.new_getName_valid {ι V : Type} (T : ι) (name : String) (d : V)
    (description : String) (h : ∀ c ∈ name.toList, c ∈ ConfigMgr.validChars) :
    (ConfigArg.new T name d description).getName = name := by
  apply String.ext
  show name.data.map tolower = name.data
  have : ∀ l : List Char, (∀ c ∈ l, c ∈ ConfigMgr.validChars) → l.map tolower = l := by
    intro l
    induction l with
    | nil => intro _; rfl
    | cons c rest ih =>
      intro hl
      rw [List.map_cons, tolower_valid c (hl c (List.mem_cons_self _ _)),
        ih fun x hx => hl x (List.mem_cons_of_mem _ hx)]
  exact this name.data h

theorem ConfigMgr.mem_of_find (entries : List (String × Nat)) (name : String) (p : Nat)
    (h : ConfigMgr.find entries name = some p) : (name, p) ∈ entries := by
  induction entries with
  | nil => simp [ConfigMgr.find] at h
  | cons e rest ih =>
    obtain ⟨k, q⟩ := e
    unfold ConfigMgr.find at h
    by_cases hk : k = name
    · simp only [hk, if_true, Option.some.injEq] at h
      subst hk; subst h
      exact List.mem_cons_self _ _
    · simp only [hk, if_false] at h
      exact List.mem_cons_of_mem _ (ih h)

theorem ConfigMgr.mem_assign (entries : List (String × Nat)) (name : String) (p : Nat)
    (e : String × Nat) (h : e ∈ ConfigMgr.assign entries name p) :
    e = (name, p) ∨ e ∈ entries := by
  induction entries with
  | nil => simpa [ConfigMgr.assign] using h
  | cons x rest ih =>
    obtain ⟨k, q⟩ := x
    unfold ConfigMgr.assign at h
    by_cases hk : k = name
    · simp only [hk, if_true, List.mem_cons] at h
      rcases h with h | h
      · exact Or.inl h
      · exact Or.inr (List.mem_cons_of_mem _ h)
    · simp only [hk, if_false] at h
      by_cases hlt : name < k
      · simp only [hlt, if_true, List.mem_cons] at h
        rcases h with h | h | h
        · exact Or.inl h
        · exact Or.inr (by rw [h]; exact List.mem_cons_self _ _)
        · exact Or.inr (List.mem_cons_of_mem _ h)
      · simp only [hlt, if_false, List.mem_cons] at h
        rcases h with h | h
        · exact Or.inr (by rw [h]; exact List.mem_cons_self _ _)
        · rcases ih h with h2 | h2
          · exact Or.inl h2
          · exact Or.inr (List.mem_cons_of_mem _ h2)

theorem ConfigMgr.find_assign_same (entries : List (String × Nat)) (name : String) (p : Nat) :
    ConfigMgr.find (ConfigMgr.assign entries name p) name = some p := by
  induction entries with
  | nil => simp [ConfigMgr.assign, ConfigMgr.find]
  | cons x rest ih =>
    obtain ⟨k, q⟩ := x
    unfold ConfigMgr.assign
    by_cases hk : k = name
    · simp [hk, ConfigMgr.find]
    · by_cases hlt : name < k
      · simp [hk, hlt, ConfigMgr.find]
      · simp [hk, hlt, ConfigMgr.find, ih]

theorem ConfigMgr.find_assign_other (entries : List (String × Nat)) (name other : String)
    (p : Nat) (h : other ≠ name) :
    ConfigMgr.find (ConfigMgr.assign entries name p) other = ConfigMgr.find entries other := by
  have h2 : ¬ name = other := fun e => h e.symm
  induction entries with
  | nil => simp [ConfigMgr.assign, ConfigMgr.find, h2]
  | cons x rest ih =>
    obtain ⟨k, q⟩ := x
    unfold ConfigMgr.assign
    by_cases hk : k = name
    · subst hk
      simp [ConfigMgr.find, h2]
    · by_cases hlt : name < k
      · simp [hk, hlt, ConfigMgr.find, h2]
      · by_cases hko : k = other
        · subst hko
          rw [if_neg hk, if_neg hlt]
          simp [ConfigMgr.find]
        · simp [hk, hlt, ConfigMgr.find, hko, ih]

theorem ConfigMgr.keysAreNames_iff {ι V : Type} (mgr : ConfigMgr ι V) :
    mgr.keysAreNames = true ↔
      ∀ e ∈ mgr.m_data, ∃ a, mgr.heap[e.2]? = some a ∧ a.getName = e.1 := by
  unfold ConfigMgr.keysAreNames
  rw [List.all_eq_true]
  constructor
  · intro h e he
    have := h e he
    cases hh : mgr.heap[e.2]? with
    | none => simp [hh] at this
    | some a => exact ⟨a, rfl, by simpa [hh] using this⟩
  · intro h e he
    obtain ⟨a, ha, hn⟩ := h e he
    simp [ha, hn]

theorem ConfigMgr.lookUpName_eq_some {ι V : Type} [DecidableEq ι] (mgr : ConfigMgr ι V)
    (T : ι) (name : String) (q : Nat) :
    mgr.lookUpName T name = some q ↔
      ConfigMgr.find mgr.m_data name = some q ∧ ∃ a, mgr.heap[q]? = some a ∧ a.T = T := by
  unfold ConfigMgr.lookUpName ConfigMgr.dynamic_pointer_cast
  cases hf : ConfigMgr.find mgr.m_data name with
  | none => simp
  | some p =>
    cases hh : mgr.heap[p]? with
    | none =>
      simp only [hh]
      constructor
      · intro h
        cases h
      · rintro ⟨hpq, a, ha, _⟩
        cases hpq
        rw [hh] at ha; cases ha
    | some a =>
      simp only [hh]
      by_cases hT : a.T = T
      · rw [if_pos hT]
        constructor
        · intro h
          cases h
          exact ⟨rfl, a, hh, hT⟩
        · rintro ⟨hpq, _⟩
          exact hpq
      · rw [if_neg hT]
        constructor
        · intro h
          cases h
        · rintro ⟨hpq, b, hb, hbT⟩
          cases hpq
          rw [hh] at hb; cases hb
          exact absurd hbT hT

theorem ConfigMgr.lookUp_of_valid {ι V : Type} [DecidableEq ι] (mgr : ConfigMgr ι V) (T : ι)
    (name : String) (d : V) (description : String)
    (h : ∀ c ∈ name.toList, c ∈ ConfigMgr.validChars) :
    mgr.lookUp T name d description =
      match mgr.lookUpName T name with
      | some tmp =>
        (.ok tmp,
          { mgr with logged := mgr.logged ++ [(.INFO, "Lookup name = " ++ name ++ " exists ")] })
      | none =>
        (.ok mgr.heap.length,
          { heap := mgr.heap ++ [ConfigArg.new T name d description]
            m_data := ConfigMgr.assign mgr.m_data name mgr.heap.length
            logged := mgr.logged }) := by
  have hnone := (find_first_not_of_eq_none name.toList ConfigMgr.validChars).mpr h
  unfold ConfigMgr.lookUp
  rw [hnone]
  rfl

/-- C13: for a name that passes the character validation of `lookUp`, the lower-casing
done by the base-class constructor is the identity, so the parameter is created
with `getName()` equal to `name`; `lookUp(name, default, description)` returns a
parameter that is stored under `name` and whose `getName()` is `name`, and a
map in which every key equals the `getName()` of its parameter stays so.  For an
arbitrary name `getName()` is the name with `tolower` applied to each character:
the uppercase letters become the lowercase ones and every other character is
kept. -/
theorem ConfigMgr_lookUp_key_is_getName {ι V : Type} [DecidableEq ι] (mgr : ConfigMgr ι V)
    (T : ι) (name : String) (d : V) (description : String)
    (hvalid : ∀ c ∈ name.toList, c ∈ "abcdefghijklmnopqrstuvwxyz._0123456789".toList)
    (hinv : mgr.keysAreNames = true) :
    (ConfigArg.new T name d description).getName = name ∧
    (mgr.lookUp T name d description).2.keysAreNames = true ∧
    (∃ p a, (mgr.lookUp T name d description).1 = .ok p ∧
      ConfigMgr.find (mgr.lookUp T name d description).2.m_data name = some p ∧
      (mgr.lookUp T name d description).2.heap[p]? = some a ∧ a.getName = name) ∧
    (∀ nm : String, (ConfigArg.new T nm d description).getName.toList = nm.toList.map tolower) ∧
    "ABCDEFGHIJKLMNOPQRSTUVWXYZ".toList.map tolower = "abcdefghijklmnopqrstuvwxyz".toList ∧
    (∀ c : Char, ¬ ('A' ≤ c ∧ c ≤ 'Z') → tolower c = c) := by
  have hv : ∀ c ∈ name.toList, c ∈ ConfigMgr.validChars := hvalid
  have hname := ConfigArg.new_getName_valid T name d description hv
  have hI := (ConfigMgr.keysAreNames_iff mgr).mp hinv
  have hlook := ConfigMgr.lookUp_of_valid mgr T name d description hv
  refine ⟨hname, ?_, ?_, fun _ => rfl, by decide, tolower_of_not_upper⟩
  · rw [ConfigMgr.keysAreNames_iff, hlook]
    cases hl : mgr.lookUpName T name with
    | some tmp => exact hI
    | none =>
      intro e he
      rcases ConfigMgr.mem_assign _ _ _ _ he with h1 | h1
      · subst h1
        exact ⟨ConfigArg.new T name d description, by simp, hname⟩
      · obtain ⟨a, ha, hn⟩ := hI e h1
        refine ⟨a, ?_, hn⟩
        have hlt : e.2 < mgr.heap.length := by
          by_contra hge
          rw [List.getElem?_eq_none (Nat.le_of_not_lt hge)] at ha
          cases ha
        show (mgr.heap ++ [ConfigArg.new T name d description])[e.2]? = some a
        rw [List.getElem?_append_left hlt]
        exact ha
  · rw [hlook]
    cases hl : mgr.lookUpName T name with
    | some tmp =>
      obtain ⟨hf, a, ha, _⟩ := (ConfigMgr.lookUpName_eq_some mgr T name tmp).mp hl
      obtain ⟨b, hb, hbn⟩ := hI (name, tmp) (ConfigMgr.mem_of_find _ _ _ hf)
      exact ⟨tmp, b, rfl, hf, hb, hbn⟩
    | none =>
      exact ⟨mgr.heap.length, ConfigArg.new T name d description, rfl,
        ConfigMgr.find_assign_same _ _ _, by simp, hname⟩

/-- C13 at a concrete input: "system.port" looked up in the empty manager. -/
theorem ConfigMgr_lookUp_key_is_getName_witness :
    (ConfigArg.new "int" "system.port" (8080 : Int) "port").getName = "system.port" ∧
    ((ConfigMgr.mk [] [] [] : ConfigMgr String Int).lookUp "int" "system.port" 8080
      "port").2.keysAreNames = true :=
  have h := ConfigMgr_lookUp_key_is_getName (ConfigMgr.mk [] [] [] : ConfigMgr String Int)
    "int" "system.port" 8080 "port" (by decide) rfl
  ⟨h.1, h.2.1⟩

/-- C15: the one-argument `lookUp<T>(name)` returns the parameter stored under `name`
exactly when that parameter has value type `T`, and returns null exactly when
no parameter is stored under `name` or the one stored has a different value
type.  In the latter case, for a valid name, `lookUp<T>(name, default,
description)` creates a new parameter of type `T` holding `default`, returns
it, makes it the entry of `name`, and leaves the entry of every other name, and
every parameter object that existed, unchanged. -/
theorem ConfigMgr_lookUp_by_type {ι V : Type} [DecidableEq ι] (mgr : ConfigMgr ι V) (T : ι)
    (name : String) (d : V) (description : String) :
    (∀ q : Nat, mgr.lookUpName T name = some q ↔
      ConfigMgr.find mgr.m_data name = some q ∧ ∃ a, mgr.heap[q]? = some a ∧ a.T = T) ∧
    (ConfigMgr.find mgr.m_data name = none → mgr.lookUpName T name = none) ∧
    (∀ (p : Nat) (a : ConfigArg ι V), ConfigMgr.find mgr.m_data name = some p →
      mgr.heap[p]? = some a → a.T ≠ T →
      mgr.lookUpName T name = none ∧
      ((∀ c ∈ name.toList, c ∈ "abcdefghijklmnopqrstuvwxyz._0123456789".toList) →
        (mgr.lookUp T name d description).1 = .ok mgr.heap.length ∧
        ConfigMgr.find (mgr.lookUp T name d description).2.m_data name =
          some mgr.heap.length ∧
        (mgr.lookUp T name d description).2.heap[mgr.heap.length]? =
          some (ConfigArg.new T name d description) ∧
        (ConfigArg.new T name d description).T = T ∧
        (ConfigArg.new T name d description).getValue = d ∧
        (∀ other : String, other ≠ name →
          ConfigMgr.find (mgr.lookUp T name d description).2.m_data other =
            ConfigMgr.find mgr.m_data other) ∧
        (∀ (i : Nat) (b : ConfigArg ι V), mgr.heap[i]? = some b →
          (mgr.lookUp T name d description).2.heap[i]? = some b))) := by
  refine ⟨ConfigMgr.lookUpName_eq_some mgr T name, ?_, ?_⟩
  · intro hf
    simp [ConfigMgr.lookUpName, hf]
  · intro p a hf ha hT
    have hnone : mgr.lookUpName T name = none := by
      simp [ConfigMgr.lookUpName, ConfigMgr.dynamic_pointer_cast, hf, ha, hT]
    refine ⟨hnone, ?_⟩
    intro hvalid
    have hlook := ConfigMgr.lookUp_of_valid mgr T name d description hvalid
    rw [hnone] at hlook
    rw [hlook]
    refine ⟨rfl, ConfigMgr.find_assign_same _ _ _, by simp, rfl, rfl, ?_, ?_⟩
    · intro other ho
      exact ConfigMgr.find_assign_other _ _ _ _ ho
    · intro i b hb
      have hlt : i < mgr.heap.length := by
        by_contra hge
        rw [List.getElem?_eq_none (Nat.le_of_not_lt hge)] at hb
        cases hb
      show (mgr.heap ++ [ConfigArg.new T name d description])[i]? = some b
      rw [List.getElem?_append_left hlt]
      exact hb

/-- C15 at a concrete input: "system.port" holds a `ConfigArg<int>`, "system.name" a
`ConfigArg<std::string>`; `lookUp<std::string>("system.port")` is null, and the
three-argument call replaces the entry of "system.port" and keeps that of
"system.name". -/
theorem ConfigMgr_lookUp_by_type_witness :
    (ConfigMgr.mk
      [ConfigArg.new "int" "system.port" (Sum.inl 8080 : Int ⊕ String) "port",
       ConfigArg.new "std::string" "system.name" (Sum.inr "srv") "name"]
      [("system.name", 1), ("system.port", 0)] []).lookUpName "std::string" "system.port"
      = none ∧
    ConfigMgr.find ((ConfigMgr.mk
      [ConfigArg.new "int" "system.port" (Sum.inl 8080 : Int ⊕ String) "port",
       ConfigArg.new "std::string" "system.name" (Sum.inr "srv") "name"]
      [("system.name", 1), ("system.port", 0)] []).lookUp "std::string" "system.port"
        (Sum.inr "x") "").2.m_data "system.port" = some 2 ∧
    ConfigMgr.find ((ConfigMgr.mk
      [ConfigArg.new "int" "system.port" (Sum.inl 8080 : Int ⊕ String) "port",
       ConfigArg.new "std::string" "system.name" (Sum.inr "srv") "name"]
      [("system.name", 1), ("system.port", 0)] []).lookUp "std::string" "system.port"
        (Sum.inr "x") "").2.m_data "system.name" = some 1 :=
  have h := (ConfigMgr_lookUp_by_type (ConfigMgr.mk
      [ConfigArg.new "int" "system.port" (Sum.inl 8080 : Int ⊕ String) "port",
       ConfigArg.new "std::string" "system.name" (Sum.inr "srv") "name"]
      [("system.name", 1), ("system.port", 0)] []) "std::string" "system.port"
        (Sum.inr "x") "").2.2 0
      (ConfigArg.new "int" "system.port" (Sum.inl 8080 : Int ⊕ String) "port")
      rfl rfl (by decide)
  ⟨h.1, (h.2 (by decide)).2.1, ((h.2 (by decide)).2.2.2.2.2.1 "system.name" (by decide))⟩

end Server
